import Mathlib

/-!
Verification of the AbletonMCP-boost bridge (Remote Scripts and MCP server).

This file shallowly embeds the parts of the repository that the checked
properties are about:

* the host-side command dispatcher `_process_command` of both Remote Scripts
  (`AbletonMCP-boost_Remote_Script/__init__.py` and
  `AbletonMCP_Remote_Script/__init__.py`), together with the concrete
  handlers `_set_tempo`, `_create_clip`, `_fire_clip`, `_stop_clip` and
  `_set_clip_follow_action`;
* the JSON wire framing used by `_handle_client` (host side) and
  `receive_full_response` (server side, `MCP_Server/server.py`);
* the server-side connection management `send_command` and
  `get_ableton_connection` of `MCP_Server/server.py`.

JSON numbers are modelled as exact rationals; Python dictionaries as
association lists in insertion order.  The Ableton Live object graph is
external to the repository: mutations performed through the Live API
(`clip_slot.create_clip`, `clip_slot.fire`, ...) are modelled as the
corresponding updates of an explicit `Song` state.  Concurrency (the
main-thread scheduler and the response queue) is modelled by an explicit
delivery flag: `delivered = true` means the queued task ran and its result
reached the queue within the 10 second bound, `delivered = false` means
`queue.Empty` was raised after the timeout.
-/

namespace Ableton

/-! ## JSON values (post-`json.loads` level)

`JVal` models a decoded JSON value as handled by `_process_command`:
dictionaries keep insertion order, numbers are exact rationals. -/

inductive JVal where
  | null : JVal
  | bool : Bool → JVal
  | num : ℚ → JVal
  | str : String → JVal
  | arr : List JVal → JVal
  | obj : List (String × JVal) → JVal

/-- A decoded JSON object (a Python dict), in insertion order. -/
abbrev JResult := List (String × JVal)

/-- `d.get(k)` on a Python dict: first binding of `k`, if any. -/
def jlookup (kvs : JResult) (k : String) : Option JVal :=
  match kvs with
  | [] => none
  | (k2, v) :: rest => if k2 = k then some v else jlookup rest k

/-- `params.get(k, d)` for a numeric parameter. -/
def getNumP (p : JResult) (k : String) (d : ℚ) : ℚ :=
  match jlookup p k with
  | some (JVal.num q) => q
  | _ => d

/-- `params.get(k, d)` for an integer index parameter. -/
def getIntP (p : JResult) (k : String) (d : Int) : Int :=
  match jlookup p k with
  | some (JVal.num q) => q.floor
  | _ => d

/-- `params.get(k, d)` for a string parameter. -/
def getStrP (p : JResult) (k : String) (d : String) : String :=
  match jlookup p k with
  | some (JVal.str s) => s
  | _ => d

/-! ## The host object graph

State touched by the modelled handlers.  Fields mirror the Live API
attributes read or written by the Remote Script source. -/

structure Clip where
  name : String := ""
  length : ℚ := 4
  isPlaying : Bool := false
  followActionA : Nat := 0
  followActionAProb : ℚ := 0
  followActionB : Nat := 0
  followActionBProb : ℚ := 0
  followActionEnabled : Bool := false
  followActionTime : ℚ := 0
  followActionLinked : Bool := false

structure ClipSlot where
  clip : Option Clip := none

structure Track where
  name : String := ""
  clipSlots : List ClipSlot := []

structure Song where
  tempo : ℚ := 120
  tracks : List Track := []

/-- The clip stored at track `ti`, slot `ci` (if those indices exist). -/
def clipAt (s : Song) (ti ci : Nat) : Option Clip :=
  ((s.tracks.getD ti {}).clipSlots.getD ci {}).clip

/-- `clip_slot.stop()`: the Live API stops playback in the slot; modelled as
clearing the playing flag of the clip held by the slot, if any. -/
def slotStop (slot : ClipSlot) : ClipSlot :=
  { slot with clip := slot.clip.map (fun c => { c with isPlaying := false }) }

/-- `clip_slot.fire()`: the Live API launches the clip; modelled as setting
the playing flag of the clip held by the slot, if any. -/
def slotFire (slot : ClipSlot) : ClipSlot :=
  { slot with clip := slot.clip.map (fun c => { c with isPlaying := true }) }

/-! ## Handler embeddings

Each handler is a function `... → Song → Except String JResult × Song`:
`Except.error msg` models a raised exception with message `msg`, and the
returned `Song` is the host state after the call (exceptions in Python do
not roll back prior mutations, so the state is threaded through both
outcomes). -/

/-- `_set_tempo` (boost lines 697-708, plain lines 592-603): assigns
`self._song.tempo = tempo` and returns `{"tempo": self._song.tempo}`. -/
def setTempo (tempo : ℚ) (s : Song) : Except String JResult × Song :=
  let s2 := { s with tempo := tempo }
  (Except.ok [("tempo", JVal.num s2.tempo)], s2)

/-- `_create_clip` (boost lines 601-628, plain lines 496-523): validates the
track index, the clip index and that the slot is empty, then calls
`clip_slot.create_clip(length)`.  The Live-created clip is modelled as a
fresh clip of the requested length. -/
def createClip (trackIndex clipIndex : Int) (length : ℚ) (s : Song) :
    Except String JResult × Song :=
  if trackIndex < 0 ∨ (s.tracks.length : Int) ≤ trackIndex then
    (Except.error "Track index out of range", s)
  else
    let track := s.tracks.getD trackIndex.toNat {}
    if clipIndex < 0 ∨ (track.clipSlots.length : Int) ≤ clipIndex then
      (Except.error "Clip index out of range", s)
    else
      let slot := track.clipSlots.getD clipIndex.toNat {}
      if slot.clip.isSome then
        (Except.error "Clip slot already has a clip", s)
      else
        let newClip : Clip := { name := "", length := length }
        let slot2 : ClipSlot := { clip := some newClip }
        let track2 := { track with clipSlots := track.clipSlots.set clipIndex.toNat slot2 }
        let s2 := { s with tracks := s.tracks.set trackIndex.toNat track2 }
        (Except.ok [("name", JVal.str newClip.name), ("length", JVal.num newClip.length)], s2)

/-- `_fire_clip` (boost lines 710-734, plain lines 605-629): validates both
indices, requires `clip_slot.has_clip`, then fires the slot. -/
def fireClip (trackIndex clipIndex : Int) (s : Song) :
    Except String JResult × Song :=
  if trackIndex < 0 ∨ (s.tracks.length : Int) ≤ trackIndex then
    (Except.error "Track index out of range", s)
  else
    let track := s.tracks.getD trackIndex.toNat {}
    if clipIndex < 0 ∨ (track.clipSlots.length : Int) ≤ clipIndex then
      (Except.error "Clip index out of range", s)
    else
      let slot := track.clipSlots.getD clipIndex.toNat {}
      if slot.clip.isSome then
        let track2 := { track with clipSlots := track.clipSlots.set clipIndex.toNat (slotFire slot) }
        let s2 := { s with tracks := s.tracks.set trackIndex.toNat track2 }
        (Except.ok [("fired", JVal.bool true)], s2)
      else
        (Except.error "No clip in slot", s)

/-- `_stop_clip` (boost lines 736-757, plain lines 631-652): validates both
indices and stops the slot; there is no `has_clip` check. -/
def stopClip (trackIndex clipIndex : Int) (s : Song) :
    Except String JResult × Song :=
  if trackIndex < 0 ∨ (s.tracks.length : Int) ≤ trackIndex then
    (Except.error "Track index out of range", s)
  else
    let track := s.tracks.getD trackIndex.toNat {}
    if clipIndex < 0 ∨ (track.clipSlots.length : Int) ≤ clipIndex then
      (Except.error "Clip index out of range", s)
    else
      let slot := track.clipSlots.getD clipIndex.toNat {}
      let track2 := { track with clipSlots := track.clipSlots.set clipIndex.toNat (slotStop slot) }
      let s2 := { s with tracks := s.tracks.set trackIndex.toNat track2 }
      (Except.ok [("stopped", JVal.bool true)], s2)

/-- The `action_map.get(action_type.lower(), 0)` table of
`_set_clip_follow_action` (boost lines 1728-1739, plain lines 1588-1599):
unrecognized strings map to 0 ("none"). -/
def followActionMap (a : String) : Nat :=
  if a = "none" then 0
  else if a = "next" then 1
  else if a = "prev" then 2
  else if a = "first" then 3
  else if a = "last" then 4
  else if a = "any" then 5
  else if a = "other" then 6
  else 0

/-- `_set_clip_follow_action` (boost lines 1708-1766, plain lines
1568-1626): validates indices and `has_clip`, clamps the probability to
[0, 1], writes follow action A with the clamped probability, follow action
B = none with the remaining probability, and enables follow actions. -/
def setClipFollowAction (trackIndex clipIndex : Int) (actionType : String)
    (probability : ℚ) (s : Song) : Except String JResult × Song :=
  if trackIndex < 0 ∨ (s.tracks.length : Int) ≤ trackIndex then
    (Except.error "Track index out of range", s)
  else
    let track := s.tracks.getD trackIndex.toNat {}
    if clipIndex < 0 ∨ (track.clipSlots.length : Int) ≤ clipIndex then
      (Except.error "Clip index out of range", s)
    else
      let slot := track.clipSlots.getD clipIndex.toNat {}
      match slot.clip with
      | none => (Except.error "No clip in slot", s)
      | some c =>
        let actionValue := followActionMap actionType.toLower
        let prob := max 0 (min 1 probability)
        let c2 := { c with
          followActionA := actionValue
          followActionAProb := prob
          followActionB := 0
          followActionBProb := 1 - prob
          followActionEnabled := true }
        let track2 := { track with
          clipSlots := track.clipSlots.set clipIndex.toNat { clip := some c2 } }
        let s2 := { s with tracks := s.tracks.set trackIndex.toNat track2 }
        (Except.ok [("track_index", JVal.num trackIndex),
                    ("clip_index", JVal.num clipIndex),
                    ("action_type", JVal.str actionType),
                    ("probability", JVal.num prob),
                    ("follow_action_enabled", JVal.bool true)], s2)

/-! ## The command dispatcher `_process_command`

The dispatcher routes on the command-type string.  Both Remote Scripts use
the same structure: a chain of equality tests for read-only commands that
run on the calling thread, a membership test in an explicit list for
state-mutating commands that are queued to the main thread, and an `else`
branch producing an unknown-command error.  The branches test disjoint
strings, so the chain is encoded as membership in the two lists below. -/

/-- Command types the boost script handles directly on the calling thread
(`AbletonMCP-boost_Remote_Script/__init__.py` lines 224-261). -/
def boostQueryCommands : List String :=
  ["get_session_info", "get_track_info", "get_browser_item",
   "get_browser_categories", "get_browser_items", "get_browser_tree",
   "get_browser_items_at_path", "get_arrangement_info",
   "get_track_arrangement_clips", "get_time_signatures",
   "get_arrangement_markers", "show_arrangement_view", "show_session_view"]

/-- Command types the boost script schedules on the main thread
(`AbletonMCP-boost_Remote_Script/__init__.py` lines 263-281). -/
def boostMutatingCommands : List String :=
  ["create_midi_track", "set_track_name", "create_clip", "add_notes_to_clip",
   "set_clip_name", "set_tempo", "fire_clip", "stop_clip", "start_playback",
   "stop_playback", "load_browser_item", "create_arrangement_section",
   "duplicate_section", "create_transition", "convert_session_to_arrangement",
   "set_clip_follow_action_time", "set_clip_follow_action",
   "set_clip_follow_action_linked", "setup_clip_sequence",
   "setup_project_follow_actions", "add_automation_to_clip",
   "create_audio_track", "insert_arrangement_clip",
   "duplicate_clip_to_arrangement", "set_locators", "set_arrangement_loop",
   "set_time_signature", "set_playhead_position", "create_arrangement_marker",
   "create_complex_arrangement", "quantize_arrangement_clips",
   "consolidate_arrangement_selection", "set_arrangement_record",
   "arrangement_to_session", "start_arrangement_recording"]

/-- Command types the plain script handles directly on the calling thread
(`AbletonMCP_Remote_Script/__init__.py` lines 224-228 and 352-369). -/
def mcpQueryCommands : List String :=
  ["get_session_info", "get_track_info", "get_browser_item",
   "get_browser_categories", "get_browser_items", "get_browser_tree",
   "get_browser_items_at_path"]

/-- Command types the plain script schedules on the main thread
(`AbletonMCP_Remote_Script/__init__.py` lines 230-237). -/
def mcpMutatingCommands : List String :=
  ["create_midi_track", "set_track_name", "create_clip", "add_notes_to_clip",
   "set_clip_name", "set_tempo", "fire_clip", "stop_clip", "start_playback",
   "stop_playback", "load_browser_item", "create_arrangement_section",
   "duplicate_section", "create_transition", "convert_session_to_arrangement",
   "set_clip_follow_action_time", "set_clip_follow_action",
   "set_clip_follow_action_linked"]

/-- A family of handlers: command type and params to an outcome on the song
state.  `Except.error` models a raised exception whose message the
dispatcher turns into an error response. -/
abbrev CommandHandlers := String → JResult → Song → Except String JResult × Song

/-- Response construction: `_process_command` initializes
`{"status": "success", "result": {}}`, overwrites `result` on success. -/
def successResponse (res : JResult) : JResult :=
  [("status", JVal.str "success"), ("result", JVal.obj res)]

/-- On failure `_process_command` sets `status` to `"error"` and appends a
`message` key; the initialized empty `result` stays in the dict. -/
def errorResponse (msg : String) : JResult :=
  [("status", JVal.str "error"), ("result", JVal.obj []), ("message", JVal.str msg)]

/-- Wrap a handler outcome in the response envelope: success results are
stored under `result`, exception messages under `message` (the inner
`main_thread_task` try/except and the outer try/except of
`_process_command` produce the same envelope). -/
def wrapOutcome (o : Except String JResult × Song) : JResult × Song :=
  match o with
  | (Except.ok res, s2) => (successResponse res, s2)
  | (Except.error m, s2) => (errorResponse m, s2)

/-- The timeout passed to `response_queue.get` (boost line 466, plain line
343), in seconds. -/
def mainThreadTimeoutSeconds : ℚ := 10

/-- `_process_command` (boost lines 211-484, plain lines 211-379), routed on
the already-extracted command type string.  `delivered = false` models the
`queue.Empty` timeout of the main-thread round trip; in that case the state
of the modelled step is the song as seen by the dispatcher (the scheduled
task may still run later on the host main thread, outside this step). -/
def dispatch (queryCmds mutatingCmds : List String) (query task : CommandHandlers)
    (delivered : Bool) (commandType : String) (params : JResult) (song : Song) :
    JResult × Song :=
  if commandType ∈ queryCmds then
    wrapOutcome (query commandType params song)
  else if commandType ∈ mutatingCmds then
    if delivered then
      wrapOutcome (task commandType params song)
    else
      (errorResponse "Timeout waiting for operation to complete", song)
  else
    (errorResponse ("Unknown command: " ++ commandType), song)

/-- The `main_thread_task` elif chain (boost lines 286-448) restricted to
the handlers embedded above; the remaining branches are deferred to the
`other` parameter.  Parameter extraction (`params.get` with the source
defaults) mirrors the boost script. -/
def mainThreadTask (other : CommandHandlers) : CommandHandlers := fun ct p song =>
  if ct = "create_clip" then
    createClip (getIntP p "track_index" 0) (getIntP p "clip_index" 0)
      (getNumP p "length" 4) song
  else if ct = "set_tempo" then
    setTempo (getNumP p "tempo" 120) song
  else if ct = "fire_clip" then
    fireClip (getIntP p "track_index" 0) (getIntP p "clip_index" 0) song
  else if ct = "stop_clip" then
    stopClip (getIntP p "track_index" 0) (getIntP p "clip_index" 0) song
  else if ct = "set_clip_follow_action" then
    setClipFollowAction (getIntP p "track_index" 0) (getIntP p "clip_index" 0)
      (getStrP p "action_type" "next") (getNumP p "probability" 1) song
  else other ct p song

/-! ## Server side: `AbletonConnection.send_command` (`MCP_Server/server.py`)

The socket exchange is external I/O; its possible outcomes after a command
was sent are modelled by `Transport`.  The connection handle keeps only
whether `self.sock` is `None`. -/

structure Conn where
  connected : Bool

/-- Outcome of the send/receive exchange inside the `try` block of
`send_command`. -/
inductive Transport where
  | ok : JResult → Transport
  | timeout : Transport
  | connError : String → Transport
  | badJson : String → Transport
  | otherFail : String → Transport

/-- `response.get("status") == "error"` on a decoded response dict. -/
def isErrorStatus (resp : JResult) : Bool :=
  match jlookup resp "status" with
  | some (JVal.str s) => s == "error"
  | _ => false

/-- `response.get("message", "Unknown error from Ableton")` as the string
used in the raised exception. -/
def abletonErrorMessage (resp : JResult) : String :=
  match jlookup resp "message" with
  | some (JVal.str m) => m
  | _ => "Unknown error from Ableton"

/-- `response.get("result", {})`. -/
def responseResult (resp : JResult) : JVal :=
  (jlookup resp "result").getD (JVal.obj [])

/-- `AbletonConnection.send_command` (server.py lines 93-168).  `connectOk`
models whether `self.connect()` would succeed when no socket is cached.
Every exception path inside the `try` block sets `self.sock = None` before
re-raising; an Ableton-reported error status is raised at line 143 and
caught by the generic handler at line 165. -/
def sendCommand (connectOk : Bool) (t : Transport) (c : Conn) :
    Except String JVal × Conn :=
  if c.connected = false ∧ connectOk = false then
    (Except.error "Not connected to Ableton", { connected := false })
  else
    match t with
    | Transport.ok resp =>
      if isErrorStatus resp then
        (Except.error ("Communication error with Ableton: " ++ abletonErrorMessage resp),
         { connected := false })
      else
        (Except.ok (responseResult resp), { connected := true })
    | Transport.timeout =>
      (Except.error "Timeout waiting for Ableton response", { connected := false })
    | Transport.connError m =>
      (Except.error ("Connection to Ableton lost: " ++ m), { connected := false })
    | Transport.badJson m =>
      (Except.error ("Invalid response from Ableton: " ++ m), { connected := false })
    | Transport.otherFail m =>
      (Except.error ("Communication error with Ableton: " ++ m), { connected := false })

/-! ## Server side: `get_ableton_connection` retry loop (server.py 224-260) -/

/-- Outcome of one connection attempt: `connect()` returns False, the
`get_session_info` validation raises, or both succeed. -/
inductive AttemptOutcome where
  | connectFail : AttemptOutcome
  | validateFail : AttemptOutcome
  | success : AttemptOutcome
deriving DecidableEq

structure RetryTrace where
  result : Except String Nat
  attemptsMade : Nat
  sleeps : Nat

def maxConnectAttempts : Nat := 3

/-- The fixed delay slept between consecutive attempts, in seconds
(server.py line 255). -/
def connectRetryDelaySeconds : ℚ := 1

def connectFailureMessage : String :=
  "Could not connect to Ableton. Make sure the Remote Script is running."

/-- The `for attempt in range(1, max_attempts + 1)` body: on success the
function returns inside the loop (no further sleep); on failure it sleeps
1.0 s only when `attempt < max_attempts` and continues. -/
def connectAttemptsFrom (outcome : Nat → AttemptOutcome) : Nat → Nat → RetryTrace
  | _, 0 => { result := Except.error connectFailureMessage, attemptsMade := 0, sleeps := 0 }
  | attempt, fuel + 1 =>
    if outcome attempt = AttemptOutcome.success then
      { result := Except.ok attempt, attemptsMade := 1, sleeps := 0 }
    else
      if attempt < maxConnectAttempts then
        let rest := connectAttemptsFrom outcome (attempt + 1) fuel
        { result := rest.result, attemptsMade := rest.attemptsMade + 1,
          sleeps := rest.sleeps + 1 }
      else
        { result := Except.error connectFailureMessage, attemptsMade := 1, sleeps := 0 }

/-- `get_ableton_connection` when no valid cached connection exists: the
bounded retry loop starting at attempt 1. -/
def getAbletonConnectionRetry (outcome : Nat → AttemptOutcome) : RetryTrace :=
  connectAttemptsFrom outcome 1 maxConnectAttempts

/-! ## Wire level: JSON framing (`_handle_client` and `receive_full_response`)

The wire protocol frames messages by attempting `json.loads` on the
accumulated bytes after every `recv`.  `json.dumps` with `ensure_ascii` (the
default used by both sides) emits pure ASCII, so the byte encoding and the
character sequence coincide and the buffer is modelled as a `List Char`.

`Json`/`JsonArr`/`JsonObj` model the documents sent on the wire: numbers
are either integers (rendered as by `int.__repr__`) or floats, the latter
carried as the sign/digits/fraction/exponent decomposition of the lexeme
`float.__repr__` renders (`120.0`, `0.25`, `1e-05`, `-1.5e+16`, ...), so
every numeric lexeme `json.dumps` emits in a real command frame is in the
serializer's image.  `ser` models `json.dumps` with its default separators,
and `pRun` models acceptance by `json.loads`: it is
deliberately lenient (it accepts raw control characters in strings, any
escape after a backslash, and any maximal run of number-shaped characters),
so whatever the real decoder accepts as a complete document, `pRun` accepts
as well; proving that no strict prefix is accepted even by the lenient
decoder covers the real one. -/

mutual

inductive Json where
  | null : Json
  | bool : Bool → Json
  | num : Int → Json
  | fnum : Bool → List Nat → List Nat → Option (Bool × List Nat) → Json
  | str : List Char → Json
  | arr : JsonArr → Json
  | obj : JsonObj → Json

inductive JsonArr where
  | nil : JsonArr
  | cons : Json → JsonArr → JsonArr

inductive JsonObj where
  | nil : JsonObj
  | cons : List Char → Json → JsonObj → JsonObj

end

/-- The decimal digit character for `m % 10`. -/
def digitChar (m : Nat) : Char := Char.ofNat (48 + m % 10)

def natDigitsAux : Nat → Nat → List Char → List Char
  | 0, _, acc => acc
  | fuel + 1, n, acc =>
    if n < 10 then digitChar n :: acc
    else natDigitsAux fuel (n / 10) (digitChar n :: acc)

/-- Decimal digits of a natural number, most significant first. -/
def serNat (n : Nat) : List Char := natDigitsAux (n + 1) n []

/-- `json.dumps` of an integer. -/
def serInt : Int → List Char
  | Int.ofNat n => serNat n
  | Int.negSucc n => '-' :: serNat (n + 1)

/-- The fractional part of a float lexeme: empty, or a dot followed by the
fraction digits. -/
def serFracPart : List Nat → List Char
  | [] => []
  | d :: ds => '.' :: (d :: ds).map digitChar

/-- The exponent part of a float lexeme: empty, or `e` followed by an
explicit sign and the exponent digits (as `float.__repr__` renders it,
e.g. `e-05`, `e+16`). -/
def serExpPart : Option (Bool × List Nat) → List Char
  | none => []
  | some (sgn, ds) => 'e' :: (if sgn then '+' else '-') :: ds.map digitChar

/-- `json.dumps` of a float: `float.__repr__`'s lexeme assembled from an
optional minus sign, the integer-part digits, an optional fraction and an
optional exponent (covers `120.0`, `0.25`, `1e-05`, `-1.5e+16`, `-0.5`). -/
def serFnum (neg : Bool) (ip frac : List Nat) (ex : Option (Bool × List Nat)) : List Char :=
  (if neg then ['-'] else []) ++ ip.map digitChar ++ serFracPart frac ++ serExpPart ex

/-- Lowercase hexadecimal digit for `n < 16`. -/
def hexDigit (n : Nat) : Char :=
  if n < 10 then Char.ofNat (48 + n) else Char.ofNat (87 + n)

/-- A `\uXXXX` escape for a code unit `n < 65536`. -/
def uEscape (n : Nat) : List Char :=
  ['\\', 'u', hexDigit (n / 4096 % 16), hexDigit (n / 256 % 16),
   hexDigit (n / 16 % 16), hexDigit (n % 16)]

/-- How `json.dumps` (with `ensure_ascii`) renders one character inside a
string literal: short escapes for the JSON control escapes, `\uXXXX` for
the remaining characters outside the printable ASCII range (a surrogate
pair for astral characters), the character itself otherwise. -/
def escChar (c : Char) : List Char :=
  if c = '"' then ['\\', '"']
  else if c = '\\' then ['\\', '\\']
  else if c = Char.ofNat 8 then ['\\', 'b']
  else if c = Char.ofNat 9 then ['\\', 't']
  else if c = Char.ofNat 10 then ['\\', 'n']
  else if c = Char.ofNat 12 then ['\\', 'f']
  else if c = Char.ofNat 13 then ['\\', 'r']
  else if c.toNat < 32 then uEscape c.toNat
  else if c.toNat < 127 then [c]
  else if c.toNat < 65536 then uEscape c.toNat
  else uEscape (55296 + (c.toNat - 65536) / 1024) ++
       uEscape (56320 + (c.toNat - 65536) % 1024)

/-- The escaped body of a JSON string literal. -/
def escBody (s : List Char) : List Char := (s.map escChar).flatten

/-- `json.dumps` of a string. -/
def serStr (s : List Char) : List Char := '"' :: escBody s ++ ['"']

mutual

/-- `json.dumps` with the default separators `", "` and `": "`. -/
def ser : Json → List Char
  | Json.null => ['n', 'u', 'l', 'l']
  | Json.bool true => ['t', 'r', 'u', 'e']
  | Json.bool false => ['f', 'a', 'l', 's', 'e']
  | Json.num n => serInt n
  | Json.fnum neg ip frac ex => serFnum neg ip frac ex
  | Json.str s => serStr s
  | Json.arr JsonArr.nil => ['[', ']']
  | Json.arr (JsonArr.cons v tl) => '[' :: (ser v ++ serArrTail tl) ++ [']']
  | Json.obj JsonObj.nil => ['{', '}']
  | Json.obj (JsonObj.cons k v tl) =>
    '{' :: (serMember k v ++ serObjTail tl) ++ ['}']

/-- One `"key": value` member. -/
def serMember (k : List Char) (v : Json) : List Char :=
  serStr k ++ ':' :: ' ' :: ser v

def serArrTail : JsonArr → List Char
  | JsonArr.nil => []
  | JsonArr.cons v tl => ',' :: ' ' :: ser v ++ serArrTail tl

def serObjTail : JsonObj → List Char
  | JsonObj.nil => []
  | JsonObj.cons k v tl => ',' :: ' ' :: serMember k v ++ serObjTail tl

end

/-- JSON whitespace. -/
def isWsChar (c : Char) : Bool :=
  c == ' ' || c == Char.ofNat 9 || c == Char.ofNat 10 || c == Char.ofNat 13

def skipWs : List Char → List Char
  | [] => []
  | c :: cs => if isWsChar c then skipWs cs else c :: cs

/-- Characters a (leniently modelled) JSON number may consist of. -/
def isNumChar (c : Char) : Bool :=
  if 48 ≤ c.toNat ∧ c.toNat ≤ 57 then true
  else c == '-' || c == '+' || c == '.' || c == 'e' || c == 'E'

/-- Parsing modes of the acceptance decoder: a value, the body of a string
literal after its opening quote, one `"key": value` member, the rest of an
object after a member, the rest of an array after an element. -/
inductive PMode where
  | val : PMode
  | strBody : PMode
  | member : PMode
  | objRest : PMode
  | arrRest : PMode

/-- The acceptance decoder: `pRun fuel m s = some r` means the decoder, in
mode `m`, consumes a meaningful chunk from `s` and leaves `r`.  Fuel only
bounds recursion depth; `jsonComplete` supplies enough for any input. -/
def pRun : Nat → PMode → List Char → Option (List Char)
  | 0, _, _ => none
  | fuel + 1, PMode.val, s =>
    match skipWs s with
    | [] => none
    | c :: cs =>
      if c = '{' then
        match skipWs cs with
        | [] => none
        | c2 :: r =>
          if c2 = '}' then some r
          else
            match pRun fuel PMode.member (c2 :: r) with
            | none => none
            | some r1 => pRun fuel PMode.objRest r1
      else if c = '[' then
        match skipWs cs with
        | [] => none
        | c2 :: r =>
          if c2 = ']' then some r
          else
            match pRun fuel PMode.val (c2 :: r) with
            | none => none
            | some r1 => pRun fuel PMode.arrRest r1
      else if c = '"' then pRun fuel PMode.strBody cs
      else if c = 't' then
        if cs.take 3 = ['r', 'u', 'e'] then some (cs.drop 3) else none
      else if c = 'f' then
        if cs.take 4 = ['a', 'l', 's', 'e'] then some (cs.drop 4) else none
      else if c = 'n' then
        if cs.take 3 = ['u', 'l', 'l'] then some (cs.drop 3) else none
      else if isNumChar c then some (cs.dropWhile isNumChar)
      else none
  | fuel + 1, PMode.strBody, s =>
    match s with
    | [] => none
    | c :: cs =>
      if c = '"' then some cs
      else if c = '\\' then
        match cs with
        | [] => none
        | _ :: cs2 => pRun fuel PMode.strBody cs2
      else pRun fuel PMode.strBody cs
  | fuel + 1, PMode.member, s =>
    match skipWs s with
    | [] => none
    | c :: cs =>
      if c = '"' then
        match pRun fuel PMode.strBody cs with
        | none => none
        | some r1 =>
          match skipWs r1 with
          | [] => none
          | c2 :: r2 => if c2 = ':' then pRun fuel PMode.val r2 else none
      else none
  | fuel + 1, PMode.objRest, s =>
    match skipWs s with
    | [] => none
    | c :: r =>
      if c = '}' then some r
      else if c = ',' then
        match pRun fuel PMode.member r with
        | none => none
        | some r1 => pRun fuel PMode.objRest r1
      else none
  | fuel + 1, PMode.arrRest, s =>
    match skipWs s with
    | [] => none
    | c :: r =>
      if c = ']' then some r
      else if c = ',' then
        match pRun fuel PMode.val r with
        | none => none
        | some r1 => pRun fuel PMode.arrRest r1
      else none

/-- `json.loads(s)` succeeds: a value is accepted and only whitespace
remains. -/
def jsonComplete (s : List Char) : Bool :=
  match pRun (s.length + 1) PMode.val s with
  | some r => (skipWs r).isEmpty
  | none => false

/-- One iteration of the `_handle_client` receive loop (boost and plain
scripts, lines 141-178): accumulate, attempt `json.loads`, process the
command and clear the buffer on success, otherwise keep accumulating. -/
inductive HandleResult where
  | processed : List Char → HandleResult
  | accumulate : List Char → HandleResult

def handleClientStep (buffer data : List Char) : HandleResult :=
  let buf := buffer ++ data
  if jsonComplete buf then HandleResult.processed [] else HandleResult.accumulate buf

/-- `AbletonConnection.receive_full_response` (server.py lines 46-91) over
the sequence of chunks delivered by the socket: an empty chunk models the
peer closing the connection, the end of the list models the loop ending
(timeout); both fall through to the final completeness check. -/
def receiveFullResponse : List (List Char) → List Char → Except String (List Char)
  | [], acc =>
    if acc.isEmpty then Except.error "No data received"
    else if jsonComplete acc then Except.ok acc
    else Except.error "Incomplete JSON response received"
  | chunk :: rest, acc =>
    if chunk.isEmpty then
      if acc.isEmpty then Except.error "Connection closed before receiving any data"
      else if jsonComplete acc then Except.ok acc
      else Except.error "Incomplete JSON response received"
    else
      let acc2 := acc ++ chunk
      if jsonComplete acc2 then Except.ok acc2
      else receiveFullResponse rest acc2

/-! ## A depth/string scanner used to reason about the decoder

`scan` tracks only brace/bracket depth and whether the position is inside a
string literal.  Whatever chunk the decoder consumes scans from a neutral
state back to a neutral state, while every strict prefix of a serialized
object leaves positive depth — the two facts together give the framing
property. -/

inductive SMode where
  | out : SMode
  | instr : SMode
  | esc : SMode

structure ScanSt where
  mode : SMode
  depth : Nat

def scanChar (st : ScanSt) (c : Char) : ScanSt :=
  match st.mode with
  | SMode.out =>
    if c = '{' ∨ c = '[' then { st with depth := st.depth + 1 }
    else if c = '}' ∨ c = ']' then { st with depth := st.depth - 1 }
    else if c = '"' then { st with mode := SMode.instr }
    else st
  | SMode.instr =>
    if c = '\\' then { st with mode := SMode.esc }
    else if c = '"' then { st with mode := SMode.out }
    else st
  | SMode.esc => { st with mode := SMode.instr }

def scan (st : ScanSt) (l : List Char) : ScanSt := l.foldl scanChar st

/-- The scan state in which the decoder starts consuming in each mode, at
ambient depth `d`: `objRest`/`arrRest` still owe one closing bracket. -/
def modeStart : PMode → Nat → ScanSt
  | PMode.val, d => ⟨SMode.out, d⟩
  | PMode.strBody, d => ⟨SMode.instr, d⟩
  | PMode.member, d => ⟨SMode.out, d⟩
  | PMode.objRest, d => ⟨SMode.out, d + 1⟩
  | PMode.arrRest, d => ⟨SMode.out, d + 1⟩

/-- Scanning from inside a string literal never leaves the literal: no
unescaped quote occurs.  The flag records a pending backslash escape. -/
def strSafeM : Bool → List Char → Bool
  | _, [] => true
  | true, _ :: cs => strSafeM false cs
  | false, c :: cs =>
    if c = '"' then false
    else if c = '\\' then strSafeM true cs
    else strSafeM false cs

def strSafe (l : List Char) : Bool := strSafeM false l

/-- Characters that leave an `out`-mode scan state unchanged. -/
def neutralOut (c : Char) : Prop :=
  c ≠ '{' ∧ c ≠ '[' ∧ c ≠ '}' ∧ c ≠ ']' ∧ c ≠ '"'

instance (c : Char) : Decidable (neutralOut c) := by
  unfold neutralOut; infer_instance

/-! ## Scanner lemmas -/

theorem scan_nil (st : ScanSt) : scan st [] = st := rfl

theorem scan_cons (st : ScanSt) (c : Char) (l : List Char) :
    scan st (c :: l) = scan (scanChar st c) l := rfl

theorem scan_append (st : ScanSt) (a b : List Char) :
    scan st (a ++ b) = scan (scan st a) b := by
  simp [scan, List.foldl_append]

theorem scanChar_out (c : Char) (d : Nat) :
    scanChar ⟨SMode.out, d⟩ c =
      if c = '{' ∨ c = '[' then ⟨SMode.out, d + 1⟩
      else if c = '}' ∨ c = ']' then ⟨SMode.out, d - 1⟩
      else if c = '"' then ⟨SMode.instr, d⟩
      else ⟨SMode.out, d⟩ := rfl

theorem scan_open_brace (d : Nat) : scanChar ⟨SMode.out, d⟩ '{' = ⟨SMode.out, d + 1⟩ := by
  rw [scanChar_out, if_pos (by decide)]

theorem scan_open_bracket (d : Nat) : scanChar ⟨SMode.out, d⟩ '[' = ⟨SMode.out, d + 1⟩ := by
  rw [scanChar_out, if_pos (by decide)]

theorem scan_close_brace (d : Nat) : scanChar ⟨SMode.out, d⟩ '}' = ⟨SMode.out, d - 1⟩ := by
  rw [scanChar_out, if_neg (by decide), if_pos (by decide)]

theorem scan_close_bracket (d : Nat) : scanChar ⟨SMode.out, d⟩ ']' = ⟨SMode.out, d - 1⟩ := by
  rw [scanChar_out, if_neg (by decide), if_pos (by decide)]

theorem scan_quote_out (d : Nat) : scanChar ⟨SMode.out, d⟩ '"' = ⟨SMode.instr, d⟩ := by
  rw [scanChar_out, if_neg (by decide), if_neg (by decide), if_pos rfl]

theorem scanChar_out_neutral {c : Char} (h : neutralOut c) (d : Nat) :
    scanChar ⟨SMode.out, d⟩ c = ⟨SMode.out, d⟩ := by
  obtain ⟨h1, h2, h3, h4, h5⟩ := h
  rw [scanChar_out, if_neg (by tauto), if_neg (by tauto), if_neg h5]

theorem scanChar_instr (c : Char) (d : Nat) :
    scanChar ⟨SMode.instr, d⟩ c =
      if c = '\\' then ⟨SMode.esc, d⟩
      else if c = '"' then ⟨SMode.out, d⟩
      else ⟨SMode.instr, d⟩ := rfl

theorem scanChar_esc (c : Char) (d : Nat) :
    scanChar ⟨SMode.esc, d⟩ c = ⟨SMode.instr, d⟩ := rfl

theorem scan_neutral {l : List Char} (h : ∀ c ∈ l, neutralOut c) (d : Nat) :
    scan ⟨SMode.out, d⟩ l = ⟨SMode.out, d⟩ := by
  induction l with
  | nil => rfl
  | cons c cs ih =>
    rw [scan_cons, scanChar_out_neutral (h c (by simp)) d]
    exact ih (fun x hx => h x (by simp [hx]))

theorem isWsChar_neutral {c : Char} (h : isWsChar c = true) : neutralOut c := by
  simp only [isWsChar, Bool.or_eq_true, beq_iff_eq] at h
  rcases h with ((h | h) | h) | h <;> subst h <;> decide

theorem scan_ws {w : List Char} (h : ∀ c ∈ w, isWsChar c = true) (d : Nat) :
    scan ⟨SMode.out, d⟩ w = ⟨SMode.out, d⟩ :=
  scan_neutral (fun c hc => isWsChar_neutral (h c hc)) d

theorem isNumChar_neutral {c : Char} (h : isNumChar c = true) : neutralOut c := by
  simp only [isNumChar] at h
  split at h
  · next hd =>
    obtain ⟨h1, h2⟩ := hd
    refine ⟨?_, ?_, ?_, ?_, ?_⟩ <;> intro hEq <;> subst hEq <;> revert h1 h2 <;> decide
  · next =>
    simp only [Bool.or_eq_true, beq_iff_eq] at h
    rcases h with (((h | h) | h) | h) | h <;> subst h <;> decide

theorem skipWs_decomp (s : List Char) :
    ∃ w, s = w ++ skipWs s ∧ ∀ c ∈ w, isWsChar c = true := by
  induction s with
  | nil => exact ⟨[], rfl, by simp⟩
  | cons c cs ih =>
    by_cases h : isWsChar c
    · obtain ⟨w, hw, hall⟩ := ih
      refine ⟨c :: w, ?_, ?_⟩
      · simp only [skipWs, h, if_pos]
        simpa using hw
      · intro x hx
        rcases List.mem_cons.mp hx with hx | hx
        · subst hx; exact h
        · exact hall x hx
    · refine ⟨[], ?_, by simp⟩
      simp [skipWs, h]

/-- Whatever chunk the decoder consumes scans from the mode's start state
to the neutral outside state at the ambient depth. -/
theorem pRun_scan : ∀ (fuel : Nat) (m : PMode) (s r : List Char),
    pRun fuel m s = some r →
    ∃ c, s = c ++ r ∧ ∀ d, scan (modeStart m d) c = ⟨SMode.out, d⟩ := by
  intro fuel
  induction fuel with
  | zero => intro m s r h; simp [pRun] at h
  | succ fuel ih =>
    intro m s r h
    cases m with
    | val =>
      obtain ⟨w, hws, hwall⟩ := skipWs_decomp s
      simp only [pRun] at h
      split at h
      · simp at h
      · next c cs hsk =>
        rw [hsk] at hws
        by_cases hc : c = '{'
        · subst hc
          rw [if_pos rfl] at h
          obtain ⟨w2, hws2, hwall2⟩ := skipWs_decomp cs
          split at h
          · simp at h
          · next c2 r0 hsk2 =>
            rw [hsk2] at hws2
            by_cases hc2 : c2 = '}'
            · subst hc2
              rw [if_pos rfl] at h
              obtain rfl : r0 = r := Option.some.inj h
              refine ⟨w ++ '{' :: (w2 ++ ['}']), ?_, ?_⟩
              · rw [hws, hws2]; simp
              · intro d
                simp only [modeStart]
                rw [scan_append, scan_ws hwall, scan_cons, scan_open_brace,
                    scan_append, scan_ws hwall2, scan_cons, scan_close_brace, scan_nil]
                simp
            · rw [if_neg hc2] at h
              split at h
              · simp at h
              · next r1 hm =>
                obtain ⟨cm, hcm, hscm⟩ := ih PMode.member (c2 :: r0) r1 hm
                obtain ⟨co, hco, hsco⟩ := ih PMode.objRest r1 r h
                refine ⟨w ++ '{' :: (w2 ++ (cm ++ co)), ?_, ?_⟩
                · rw [hws, hws2, hcm, hco]; simp
                · intro d
                  simp only [modeStart] at hscm hsco ⊢
                  rw [scan_append, scan_ws hwall, scan_cons, scan_open_brace,
                      scan_append, scan_ws hwall2, scan_append, hscm (d + 1), hsco d]
        · rw [if_neg hc] at h
          by_cases hb : c = '['
          · subst hb
            rw [if_pos rfl] at h
            obtain ⟨w2, hws2, hwall2⟩ := skipWs_decomp cs
            split at h
            · simp at h
            · next c2 r0 hsk2 =>
              rw [hsk2] at hws2
              by_cases hc2 : c2 = ']'
              · subst hc2
                rw [if_pos rfl] at h
                obtain rfl : r0 = r := Option.some.inj h
                refine ⟨w ++ '[' :: (w2 ++ [']']), ?_, ?_⟩
                · rw [hws, hws2]; simp
                · intro d
                  simp only [modeStart]
                  rw [scan_append, scan_ws hwall, scan_cons, scan_open_bracket,
                      scan_append, scan_ws hwall2, scan_cons, scan_close_bracket, scan_nil]
                  simp
              · rw [if_neg hc2] at h
                split at h
                · simp at h
                · next r1 hm =>
                  obtain ⟨cm, hcm, hscm⟩ := ih PMode.val (c2 :: r0) r1 hm
                  obtain ⟨co, hco, hsco⟩ := ih PMode.arrRest r1 r h
                  refine ⟨w ++ '[' :: (w2 ++ (cm ++ co)), ?_, ?_⟩
                  · rw [hws, hws2, hcm, hco]; simp
                  · intro d
                    simp only [modeStart] at hscm hsco ⊢
                    rw [scan_append, scan_ws hwall, scan_cons, scan_open_bracket,
                        scan_append, scan_ws hwall2, scan_append, hscm (d + 1), hsco d]
          · rw [if_neg hb] at h
            by_cases hq : c = '"'
            · subst hq
              rw [if_pos rfl] at h
              obtain ⟨cstr, hcs, hscs⟩ := ih PMode.strBody cs r h
              refine ⟨w ++ '"' :: cstr, ?_, ?_⟩
              · rw [hws, hcs]; simp
              · intro d
                simp only [modeStart] at hscs ⊢
                rw [scan_append, scan_ws hwall, scan_cons, scan_quote_out, hscs d]
            · rw [if_neg hq] at h
              by_cases ht : c = 't'
              · subst ht
                rw [if_pos rfl] at h
                split at h
                · next htake =>
                  obtain rfl : cs.drop 3 = r := Option.some.inj h
                  refine ⟨w ++ 't' :: cs.take 3, ?_, ?_⟩
                  · rw [hws]
                    conv_lhs => rw [← List.take_append_drop 3 cs]
                    simp
                  · intro d
                    simp only [modeStart]
                    refine scan_neutral ?_ d
                    intro x hx
                    simp only [List.mem_append, List.mem_cons] at hx
                    rcases hx with hx | hx | hx
                    · exact isWsChar_neutral (hwall x hx)
                    · subst hx; decide
                    · rw [htake] at hx
                      simp only [List.mem_cons, List.not_mem_nil, or_false] at hx
                      rcases hx with hx | hx | hx <;> subst hx <;> decide
                · simp at h
              · rw [if_neg ht] at h
                by_cases hf : c = 'f'
                · subst hf
                  rw [if_pos rfl] at h
                  split at h
                  · next htake =>
                    obtain rfl : cs.drop 4 = r := Option.some.inj h
                    refine ⟨w ++ 'f' :: cs.take 4, ?_, ?_⟩
                    · rw [hws]
                      conv_lhs => rw [← List.take_append_drop 4 cs]
                      simp
                    · intro d
                      simp only [modeStart]
                      refine scan_neutral ?_ d
                      intro x hx
                      simp only [List.mem_append, List.mem_cons] at hx
                      rcases hx with hx | hx | hx
                      · exact isWsChar_neutral (hwall x hx)
                      · subst hx; decide
                      · rw [htake] at hx
                        simp only [List.mem_cons, List.not_mem_nil, or_false] at hx
                        rcases hx with hx | hx | hx | hx <;> subst hx <;> decide
                  · simp at h
                · rw [if_neg hf] at h
                  by_cases hn : c = 'n'
                  · subst hn
                    rw [if_pos rfl] at h
                    split at h
                    · next htake =>
                      obtain rfl : cs.drop 3 = r := Option.some.inj h
                      refine ⟨w ++ 'n' :: cs.take 3, ?_, ?_⟩
                      · rw [hws]
                        conv_lhs => rw [← List.take_append_drop 3 cs]
                        simp
                      · intro d
                        simp only [modeStart]
                        refine scan_neutral ?_ d
                        intro x hx
                        simp only [List.mem_append, List.mem_cons] at hx
                        rcases hx with hx | hx | hx
                        · exact isWsChar_neutral (hwall x hx)
                        · subst hx; decide
                        · rw [htake] at hx
                          simp only [List.mem_cons, List.not_mem_nil, or_false] at hx
                          rcases hx with hx | hx | hx <;> subst hx <;> decide
                    · simp at h
                  · rw [if_neg hn] at h
                    by_cases hnum : isNumChar c
                    · rw [if_pos hnum] at h
                      obtain rfl : cs.dropWhile isNumChar = r := Option.some.inj h
                      refine ⟨w ++ c :: cs.takeWhile isNumChar, ?_, ?_⟩
                      · rw [hws]
                        conv_lhs => rw [← List.takeWhile_append_dropWhile (p := isNumChar) (l := cs)]
                        simp
                      · intro d
                        simp only [modeStart]
                        refine scan_neutral ?_ d
                        intro x hx
                        simp only [List.mem_append, List.mem_cons] at hx
                        rcases hx with hx | hx | hx
                        · exact isWsChar_neutral (hwall x hx)
                        · subst hx; exact isNumChar_neutral hnum
                        · exact isNumChar_neutral (List.mem_takeWhile_imp hx)
                    · rw [if_neg hnum] at h
                      simp at h
    | strBody =>
      simp only [pRun] at h
      split at h
      · simp at h
      · next c cs =>
        by_cases hq : c = '"'
        · subst hq
          rw [if_pos rfl] at h
          obtain rfl : cs = r := Option.some.inj h
          refine ⟨['"'], rfl, ?_⟩
          intro d
          simp only [modeStart]
          rw [scan_cons, scanChar_instr, if_neg (by decide), if_pos rfl, scan_nil]
        · rw [if_neg hq] at h
          by_cases hb : c = '\\'
          · subst hb
            rw [if_pos rfl] at h
            split at h
            · simp at h
            · next x cs2 =>
              obtain ⟨cst, hcst, hscst⟩ := ih PMode.strBody cs2 r h
              refine ⟨'\\' :: x :: cst, ?_, ?_⟩
              · rw [hcst]; simp
              · intro d
                simp only [modeStart] at hscst ⊢
                rw [scan_cons, scanChar_instr, if_pos rfl, scan_cons, scanChar_esc, hscst d]
          · rw [if_neg hb] at h
            obtain ⟨cst, hcst, hscst⟩ := ih PMode.strBody cs r h
            refine ⟨c :: cst, ?_, ?_⟩
            · rw [hcst]; simp
            · intro d
              simp only [modeStart] at hscst ⊢
              rw [scan_cons, scanChar_instr, if_neg hb, if_neg hq, hscst d]
    | member =>
      obtain ⟨w, hws, hwall⟩ := skipWs_decomp s
      simp only [pRun] at h
      split at h
      · simp at h
      · next c cs hsk =>
        rw [hsk] at hws
        by_cases hq : c = '"'
        · subst hq
          rw [if_pos rfl] at h
          split at h
          · simp at h
          · next r1 hstr =>
            obtain ⟨w2, hws2, hwall2⟩ := skipWs_decomp r1
            split at h
            · simp at h
            · next c2 r2 hsk2 =>
              rw [hsk2] at hws2
              by_cases hcol : c2 = ':'
              · subst hcol
                rw [if_pos rfl] at h
                obtain ⟨cst, hcst, hscst⟩ := ih PMode.strBody cs r1 hstr
                obtain ⟨cv, hcv, hscv⟩ := ih PMode.val r2 r h
                refine ⟨w ++ '"' :: (cst ++ (w2 ++ ':' :: cv)), ?_, ?_⟩
                · rw [hws, hcst, hws2, hcv]; simp
                · intro d
                  simp only [modeStart] at hscst hscv ⊢
                  rw [scan_append, scan_ws hwall, scan_cons, scan_quote_out,
                      scan_append, hscst d, scan_append, scan_ws hwall2,
                      scan_cons, scanChar_out_neutral (by decide) d, hscv d]
              · rw [if_neg hcol] at h
                simp at h
        · rw [if_neg hq] at h
          simp at h
    | objRest =>
      obtain ⟨w, hws, hwall⟩ := skipWs_decomp s
      simp only [pRun] at h
      split at h
      · simp at h
      · next c r0 hsk =>
        rw [hsk] at hws
        by_cases hc : c = '}'
        · subst hc
          rw [if_pos rfl] at h
          obtain rfl : r0 = r := Option.some.inj h
          refine ⟨w ++ ['}'], ?_, ?_⟩
          · rw [hws]; simp
          · intro d
            simp only [modeStart]
            rw [scan_append, scan_ws hwall, scan_cons, scan_close_brace, scan_nil]
            simp
        · rw [if_neg hc] at h
          by_cases hcc : c = ','
          · subst hcc
            rw [if_pos rfl] at h
            split at h
            · simp at h
            · next r1 hm =>
              obtain ⟨cm, hcm, hscm⟩ := ih PMode.member r0 r1 hm
              obtain ⟨co, hco, hsco⟩ := ih PMode.objRest r1 r h
              refine ⟨w ++ ',' :: (cm ++ co), ?_, ?_⟩
              · rw [hws, hcm, hco]; simp
              · intro d
                simp only [modeStart] at hscm hsco ⊢
                rw [scan_append, scan_ws hwall, scan_cons,
                    scanChar_out_neutral (by decide) (d + 1), scan_append,
                    hscm (d + 1), hsco d]
          · rw [if_neg hcc] at h
            simp at h
    | arrRest =>
      obtain ⟨w, hws, hwall⟩ := skipWs_decomp s
      simp only [pRun] at h
      split at h
      · simp at h
      · next c r0 hsk =>
        rw [hsk] at hws
        by_cases hc : c = ']'
        · subst hc
          rw [if_pos rfl] at h
          obtain rfl : r0 = r := Option.some.inj h
          refine ⟨w ++ [']'], ?_, ?_⟩
          · rw [hws]; simp
          · intro d
            simp only [modeStart]
            rw [scan_append, scan_ws hwall, scan_cons, scan_close_bracket, scan_nil]
            simp
        · rw [if_neg hc] at h
          by_cases hcc : c = ','
          · subst hcc
            rw [if_pos rfl] at h
            split at h
            · simp at h
            · next r1 hm =>
              obtain ⟨cm, hcm, hscm⟩ := ih PMode.val r0 r1 hm
              obtain ⟨co, hco, hsco⟩ := ih PMode.arrRest r1 r h
              refine ⟨w ++ ',' :: (cm ++ co), ?_, ?_⟩
              · rw [hws, hcm, hco]; simp
              · intro d
                simp only [modeStart] at hscm hsco ⊢
                rw [scan_append, scan_ws hwall, scan_cons,
                    scanChar_out_neutral (by decide) (d + 1), scan_append,
                    hscm (d + 1), hsco d]
          · rw [if_neg hcc] at h
            simp at h

/-- A document accepted by the decoder scans to depth 0 outside a string. -/
theorem jsonComplete_scan {s : List Char} (h : jsonComplete s = true) :
    scan ⟨SMode.out, 0⟩ s = ⟨SMode.out, 0⟩ := by
  unfold jsonComplete at h
  rcases hp : pRun (s.length + 1) PMode.val s with _ | r
  · rw [hp] at h; simp at h
  · rw [hp] at h
    have h2 : (skipWs r).isEmpty = true := h
    obtain ⟨c, hc, hscan⟩ := pRun_scan _ _ _ _ hp
    obtain ⟨w, hwr, hwall⟩ := skipWs_decomp r
    have hre : skipWs r = [] := by
      cases hr2 : skipWs r with
      | nil => rfl
      | cons a l => rw [hr2] at h2; simp [List.isEmpty] at h2
    rw [hre, List.append_nil] at hwr
    have hscan0 := hscan 0
    simp only [modeStart] at hscan0
    rw [hc, hwr, scan_append, hscan0, scan_ws hwall]

/-! ## Serializer-side scan lemmas -/

theorem natDigitsAux_mem : ∀ (fuel n : Nat) (acc : List Char) (c : Char),
    c ∈ natDigitsAux fuel n acc → c ∈ acc ∨ ∃ m, c = digitChar m := by
  intro fuel
  induction fuel with
  | zero => intro n acc c hc; exact Or.inl hc
  | succ fuel ih =>
    intro n acc c hc
    simp only [natDigitsAux] at hc
    split at hc
    · rcases List.mem_cons.mp hc with h | h
      · exact Or.inr ⟨n, h⟩
      · exact Or.inl h
    · rcases ih (n / 10) (digitChar n :: acc) c hc with h | h
      · rcases List.mem_cons.mp h with h2 | h2
        · exact Or.inr ⟨n, h2⟩
        · exact Or.inl h2
      · exact Or.inr h

theorem digitChar_neutral (m : Nat) : neutralOut (digitChar m) := by
  have h : ∀ k, k < 10 → neutralOut (Char.ofNat (48 + k)) := by decide
  unfold digitChar
  exact h (m % 10) (Nat.mod_lt _ (by norm_num))

theorem serInt_neutral (n : Int) : ∀ c ∈ serInt n, neutralOut c := by
  intro c hc
  cases n with
  | ofNat m =>
    simp only [serInt, serNat] at hc
    rcases natDigitsAux_mem _ _ _ _ hc with h | ⟨k, hk⟩
    · simp at h
    · subst hk; exact digitChar_neutral k
  | negSucc m =>
    simp only [serInt, serNat] at hc
    rcases List.mem_cons.mp hc with h | h
    · subst h; decide
    · rcases natDigitsAux_mem _ _ _ _ h with h2 | ⟨k, hk⟩
      · simp at h2
      · subst hk; exact digitChar_neutral k

theorem serFnum_neutral (neg : Bool) (ip frac : List Nat) (ex : Option (Bool × List Nat)) :
    ∀ c ∈ serFnum neg ip frac ex, neutralOut c := by
  intro c hc
  simp only [serFnum, List.mem_append] at hc
  rcases hc with ((h | h) | h) | h
  · cases neg
    · simp at h
    · simp only [if_true, List.mem_singleton] at h
      subst h; decide
  · obtain ⟨m, _, rfl⟩ := List.mem_map.mp h
    exact digitChar_neutral m
  · rcases frac with _ | ⟨d, ds⟩
    · simp [serFracPart] at h
    · simp only [serFracPart, List.mem_cons] at h
      rcases h with rfl | h
      · decide
      · obtain ⟨m, _, rfl⟩ := List.mem_map.mp h
        exact digitChar_neutral m
  · rcases ex with _ | ⟨sgn, ds⟩
    · simp [serExpPart] at h
    · simp only [serExpPart, List.mem_cons] at h
      rcases h with rfl | h
      · decide
      · rcases h with rfl | h
        · cases sgn <;> decide
        · obtain ⟨m, _, rfl⟩ := List.mem_map.mp h
          exact digitChar_neutral m

theorem hexDigit_mod_safe (x : Nat) :
    hexDigit (x % 16) ≠ '"' ∧ hexDigit (x % 16) ≠ '\\' := by
  have h : ∀ k, k < 16 → hexDigit k ≠ '"' ∧ hexDigit k ≠ '\\' := by decide
  exact h (x % 16) (Nat.mod_lt _ (by norm_num))

theorem scan_escape_pair (x : Char) (d : Nat) :
    scan ⟨SMode.instr, d⟩ ['\\', x] = ⟨SMode.instr, d⟩ := by
  rw [scan_cons, scanChar_instr, if_pos rfl, scan_cons, scanChar_esc, scan_nil]

theorem scan_uEscape (n : Nat) (d : Nat) :
    scan ⟨SMode.instr, d⟩ (uEscape n) = ⟨SMode.instr, d⟩ := by
  obtain ⟨ha1, ha2⟩ := hexDigit_mod_safe (n / 4096)
  obtain ⟨hb1, hb2⟩ := hexDigit_mod_safe (n / 256)
  obtain ⟨hc1, hc2⟩ := hexDigit_mod_safe (n / 16)
  obtain ⟨hd1, hd2⟩ := hexDigit_mod_safe n
  simp only [uEscape]
  rw [scan_cons, scanChar_instr, if_pos rfl, scan_cons, scanChar_esc,
      scan_cons, scanChar_instr, if_neg ha2, if_neg ha1,
      scan_cons, scanChar_instr, if_neg hb2, if_neg hb1,
      scan_cons, scanChar_instr, if_neg hc2, if_neg hc1,
      scan_cons, scanChar_instr, if_neg hd2, if_neg hd1, scan_nil]

theorem strSafe_esc_cons (x : Char) (l : List Char) :
    strSafe ('\\' :: x :: l) = strSafe l := rfl

theorem strSafe_cons_other {c : Char} (h1 : c ≠ '"') (h2 : c ≠ '\\') (l : List Char) :
    strSafe (c :: l) = strSafe l := by
  simp only [strSafe, strSafeM]
  rw [if_neg h1, if_neg h2]

theorem strSafe_uEscape (n : Nat) (rest : List Char) (h : strSafe rest = true) :
    strSafe (uEscape n ++ rest) = true := by
  obtain ⟨ha1, ha2⟩ := hexDigit_mod_safe (n / 4096)
  obtain ⟨hb1, hb2⟩ := hexDigit_mod_safe (n / 256)
  obtain ⟨hc1, hc2⟩ := hexDigit_mod_safe (n / 16)
  obtain ⟨hd1, hd2⟩ := hexDigit_mod_safe n
  simp only [uEscape, List.cons_append, List.nil_append]
  rw [strSafe_esc_cons, strSafe_cons_other ha1 ha2, strSafe_cons_other hb1 hb2,
      strSafe_cons_other hc1 hc2, strSafe_cons_other hd1 hd2]
  exact h

theorem escChar_scan (c : Char) (d : Nat) :
    scan ⟨SMode.instr, d⟩ (escChar c) = ⟨SMode.instr, d⟩ := by
  unfold escChar
  split
  · exact scan_escape_pair _ d
  split
  · exact scan_escape_pair _ d
  split
  · exact scan_escape_pair _ d
  split
  · exact scan_escape_pair _ d
  split
  · exact scan_escape_pair _ d
  split
  · exact scan_escape_pair _ d
  split
  · exact scan_escape_pair _ d
  split
  · exact scan_uEscape _ d
  next hq hb _ _ _ _ _ _ =>
    split
    · rw [scan_cons, scanChar_instr, if_neg hb, if_neg hq, scan_nil]
    split
    · exact scan_uEscape _ d
    · rw [scan_append, scan_uEscape, scan_uEscape]

theorem escChar_safe (c : Char) (rest : List Char) (h : strSafe rest = true) :
    strSafe (escChar c ++ rest) = true := by
  unfold escChar
  split
  · rw [List.cons_append, List.cons_append, List.nil_append, strSafe_esc_cons]; exact h
  split
  · rw [List.cons_append, List.cons_append, List.nil_append, strSafe_esc_cons]; exact h
  split
  · rw [List.cons_append, List.cons_append, List.nil_append, strSafe_esc_cons]; exact h
  split
  · rw [List.cons_append, List.cons_append, List.nil_append, strSafe_esc_cons]; exact h
  split
  · rw [List.cons_append, List.cons_append, List.nil_append, strSafe_esc_cons]; exact h
  split
  · rw [List.cons_append, List.cons_append, List.nil_append, strSafe_esc_cons]; exact h
  split
  · rw [List.cons_append, List.cons_append, List.nil_append, strSafe_esc_cons]; exact h
  split
  · exact strSafe_uEscape _ _ h
  next hq hb _ _ _ _ _ _ =>
    split
    · rw [List.cons_append, List.nil_append, strSafe_cons_other hq hb]; exact h
    split
    · exact strSafe_uEscape _ _ h
    · rw [List.append_assoc]
      exact strSafe_uEscape _ _ (strSafe_uEscape _ _ h)

theorem escBody_cons (c : Char) (cs : List Char) :
    escBody (c :: cs) = escChar c ++ escBody cs := by
  simp [escBody]

theorem escBody_scan (s : List Char) (d : Nat) :
    scan ⟨SMode.instr, d⟩ (escBody s) = ⟨SMode.instr, d⟩ := by
  induction s with
  | nil => rfl
  | cons c cs ih => rw [escBody_cons, scan_append, escChar_scan, ih]

theorem escBody_safe (s : List Char) : strSafe (escBody s) = true := by
  induction s with
  | nil => rfl
  | cons c cs ih => rw [escBody_cons]; exact escChar_safe c _ ih

theorem serStr_scan (s : List Char) (d : Nat) :
    scan ⟨SMode.out, d⟩ (serStr s) = ⟨SMode.out, d⟩ := by
  have h1 : scan ⟨SMode.out, d⟩ ('"' :: escBody s) = ⟨SMode.instr, d⟩ := by
    rw [scan_cons, scan_quote_out, escBody_scan]
  rw [serStr, scan_append, h1, scan_cons, scanChar_instr, if_neg (by decide),
      if_pos rfl, scan_nil]

/-- Inside a string-safe character sequence the scanner never leaves the
literal, so the depth is untouched by any prefix. -/
theorem strSafe_depth : ∀ (n : Nat) (p l q : List Char) (d : Nat), p.length ≤ n →
    strSafe l = true → l = p ++ q → (scan ⟨SMode.instr, d⟩ p).depth = d := by
  intro n
  induction n with
  | zero =>
    intro p l q d hlen _ _
    have hp : p = [] := List.length_eq_zero.mp (Nat.le_zero.mp hlen)
    subst hp; rfl
  | succ n ih =>
    intro p l q d hlen hsafe hl
    rcases p with _ | ⟨c, p2⟩
    · rfl
    · subst hl
      by_cases hq : c = '"'
      · subst hq
        exfalso
        simp only [List.cons_append] at hsafe
        rw [strSafe] at hsafe
        simp [strSafeM] at hsafe
      · by_cases hb : c = '\\'
        · subst hb
          rcases p2 with _ | ⟨x, p3⟩
          · rw [scan_cons, scanChar_instr, if_pos rfl, scan_nil]
          · have hsafe2 : strSafe (p3 ++ q) = true := by
              simp only [List.cons_append] at hsafe
              rwa [strSafe_esc_cons] at hsafe
            rw [scan_cons, scanChar_instr, if_pos rfl, scan_cons, scanChar_esc]
            refine ih p3 (p3 ++ q) q d ?_ hsafe2 rfl
            simp only [List.length_cons] at hlen
            omega
        · have hsafe2 : strSafe (p2 ++ q) = true := by
            simp only [List.cons_append] at hsafe
            rwa [strSafe_cons_other hq hb] at hsafe
          rw [scan_cons, scanChar_instr, if_neg hb, if_neg hq]
          refine ih p2 (p2 ++ q) q d ?_ hsafe2 rfl
          simp only [List.length_cons] at hlen
          omega

/-- Any split of a serialized string literal leaves the ambient depth. -/
theorem serStr_split_depth (s : List Char) (d : Nat) :
    ∀ p q, serStr s = p ++ q → (scan ⟨SMode.out, d⟩ p).depth = d := by
  intro p q h
  rw [serStr] at h
  rcases List.append_eq_append_iff.mp h with ⟨e, hp, hB⟩ | ⟨e, hA, hq⟩
  · rcases e with _ | ⟨c2, e2⟩
    · rw [List.append_nil] at hp
      subst hp
      rw [scan_cons, scan_quote_out, escBody_scan]
    · obtain ⟨rfl, h3⟩ : '"' = c2 ∧ [] = e2 ++ q := by simpa using hB
      obtain rfl : e2 = [] := (List.append_eq_nil.mp h3.symm).1
      subst hp
      have hfull := serStr_scan s d
      rw [serStr] at hfull
      rw [hfull]
  · rcases p with _ | ⟨c, p2⟩
    · rfl
    · obtain ⟨rfl, h2⟩ : '"' = c ∧ escBody s = p2 ++ e := by simpa using hA
      rw [scan_cons, scan_quote_out]
      exact strSafe_depth p2.length p2 (escBody s) e d le_rfl (escBody_safe s) h2

/-- Composing split-stability: if the left part scans neutrally and both
parts keep the depth at or above `d` on every split, so does the
concatenation. -/
theorem pfxDepthAppend {A B : List Char} {d : Nat}
    (hA : scan ⟨SMode.out, d⟩ A = ⟨SMode.out, d⟩)
    (pA : ∀ p q, A = p ++ q → d ≤ (scan ⟨SMode.out, d⟩ p).depth)
    (pB : ∀ p q, B = p ++ q → d ≤ (scan ⟨SMode.out, d⟩ p).depth) :
    ∀ p q, A ++ B = p ++ q → d ≤ (scan ⟨SMode.out, d⟩ p).depth := by
  intro p q hpq
  rcases List.append_eq_append_iff.mp hpq with ⟨e, hp, hB2⟩ | ⟨e, hA2, hq⟩
  · subst hp
    rw [scan_append, hA]
    exact pB e q hB2
  · exact pA p e hA2

theorem pfxDepthNeutral {L : List Char} (h : ∀ c ∈ L, neutralOut c) (d : Nat) :
    ∀ p q, L = p ++ q → d ≤ (scan ⟨SMode.out, d⟩ p).depth := by
  intro p q hpq
  have hp : ∀ c ∈ p, neutralOut c := fun c hc => h c (hpq ▸ List.mem_append_left q hc)
  rw [scan_neutral hp d]

theorem pfxDepthStr (s : List Char) (d : Nat) :
    ∀ p q, serStr s = p ++ q → d ≤ (scan ⟨SMode.out, d⟩ p).depth := by
  intro p q hpq
  rw [serStr_split_depth s d p q hpq]

mutual

theorem ser_scan : ∀ (v : Json) (d : Nat), scan ⟨SMode.out, d⟩ (ser v) = ⟨SMode.out, d⟩
  | Json.null, d => by
    simp only [ser]; exact scan_neutral (by decide) d
  | Json.bool true, d => by
    simp only [ser]; exact scan_neutral (by decide) d
  | Json.bool false, d => by
    simp only [ser]; exact scan_neutral (by decide) d
  | Json.num n, d => by
    simp only [ser]; exact scan_neutral (serInt_neutral n) d
  | Json.fnum neg ip frac ex, d => by
    simp only [ser]; exact scan_neutral (serFnum_neutral neg ip frac ex) d
  | Json.str s, d => by
    simp only [ser]; exact serStr_scan s d
  | Json.arr JsonArr.nil, d => by
    simp only [ser]
    rw [scan_cons, scan_open_bracket, scan_cons, scan_close_bracket, scan_nil]
    simp
  | Json.arr (JsonArr.cons v tl), d => by
    simp only [ser]
    have h1 : scan ⟨SMode.out, d⟩ ('[' :: (ser v ++ serArrTail tl)) = ⟨SMode.out, d + 1⟩ := by
      rw [scan_cons, scan_open_bracket, scan_append, ser_scan v (d + 1),
          serArrTail_scan tl (d + 1)]
    rw [scan_append, h1, scan_cons, scan_close_bracket, scan_nil]
    simp
  | Json.obj JsonObj.nil, d => by
    simp only [ser]
    rw [scan_cons, scan_open_brace, scan_cons, scan_close_brace, scan_nil]
    simp
  | Json.obj (JsonObj.cons k v tl), d => by
    simp only [ser]
    have h1 : scan ⟨SMode.out, d⟩ ('{' :: (serMember k v ++ serObjTail tl)) =
        ⟨SMode.out, d + 1⟩ := by
      rw [scan_cons, scan_open_brace, scan_append, serMember_scan k v (d + 1),
          serObjTail_scan tl (d + 1)]
    rw [scan_append, h1, scan_cons, scan_close_brace, scan_nil]
    simp

theorem serMember_scan : ∀ (k : List Char) (v : Json) (d : Nat),
    scan ⟨SMode.out, d⟩ (serMember k v) = ⟨SMode.out, d⟩
  | k, v, d => by
    simp only [serMember]
    rw [scan_append, serStr_scan, scan_cons, scanChar_out_neutral (by decide) d,
        scan_cons, scanChar_out_neutral (by decide) d, ser_scan v d]

theorem serArrTail_scan : ∀ (l : JsonArr) (d : Nat),
    scan ⟨SMode.out, d⟩ (serArrTail l) = ⟨SMode.out, d⟩
  | JsonArr.nil, d => by simp only [serArrTail]; rfl
  | JsonArr.cons v tl, d => by
    simp only [serArrTail]
    rw [scan_append, scan_cons, scanChar_out_neutral (by decide) d,
        scan_cons, scanChar_out_neutral (by decide) d, ser_scan v d,
        serArrTail_scan tl d]

theorem serObjTail_scan : ∀ (l : JsonObj) (d : Nat),
    scan ⟨SMode.out, d⟩ (serObjTail l) = ⟨SMode.out, d⟩
  | JsonObj.nil, d => by simp only [serObjTail]; rfl
  | JsonObj.cons k v tl, d => by
    simp only [serObjTail]
    rw [scan_append, scan_cons, scanChar_out_neutral (by decide) d,
        scan_cons, scanChar_out_neutral (by decide) d, serMember_scan k v d,
        serObjTail_scan tl d]

end

mutual

theorem ser_pfxDepth : ∀ (v : Json) (d : Nat) (p q : List Char),
    ser v = p ++ q → d ≤ (scan ⟨SMode.out, d⟩ p).depth
  | Json.null, d, p, q => by
    intro h; simp only [ser] at h
    exact pfxDepthNeutral (by decide) d p q h
  | Json.bool true, d, p, q => by
    intro h; simp only [ser] at h
    exact pfxDepthNeutral (by decide) d p q h
  | Json.bool false, d, p, q => by
    intro h; simp only [ser] at h
    exact pfxDepthNeutral (by decide) d p q h
  | Json.num n, d, p, q => by
    intro h; simp only [ser] at h
    exact pfxDepthNeutral (serInt_neutral n) d p q h
  | Json.fnum neg ip frac ex, d, p, q => by
    intro h; simp only [ser] at h
    exact pfxDepthNeutral (serFnum_neutral neg ip frac ex) d p q h
  | Json.str s, d, p, q => by
    intro h; simp only [ser] at h
    exact pfxDepthStr s d p q h
  | Json.arr JsonArr.nil, d, p, q => by
    intro h; simp only [ser] at h
    rcases p with _ | ⟨c, p2⟩
    · simp [scan_nil]
    · obtain ⟨rfl, h2⟩ : '[' = c ∧ [']'] = p2 ++ q := by simpa using h
      rcases p2 with _ | ⟨c2, p3⟩
      · rw [scan_cons, scan_open_bracket, scan_nil]
        show d ≤ d + 1
        omega
      · obtain ⟨rfl, h3⟩ : ']' = c2 ∧ ([] : List Char) = p3 ++ q := by simpa using h2
        obtain rfl : p3 = [] := (List.append_eq_nil.mp h3.symm).1
        rw [scan_cons, scan_open_bracket, scan_cons, scan_close_bracket, scan_nil]
        show d ≤ d + 1 - 1
        omega
  | Json.arr (JsonArr.cons v tl), d, p, q => by
    intro h; simp only [ser] at h
    rcases p with _ | ⟨c, p2⟩
    · simp [scan_nil]
    · obtain ⟨rfl, h2⟩ : '[' = c ∧ (ser v ++ serArrTail tl) ++ [']'] = p2 ++ q := by
        simpa using h
      rw [scan_cons, scan_open_bracket]
      have hinner : ∀ p3 q3, ser v ++ serArrTail tl = p3 ++ q3 →
          d + 1 ≤ (scan ⟨SMode.out, d + 1⟩ p3).depth :=
        pfxDepthAppend (ser_scan v (d + 1)) (ser_pfxDepth v (d + 1))
          (serArrTail_pfxDepth tl (d + 1))
      rcases List.append_eq_append_iff.mp h2 with ⟨e, hp2, hB⟩ | ⟨e, hA, hq⟩
      · rcases e with _ | ⟨c2, e2⟩
        · rw [List.append_nil] at hp2
          subst hp2
          rw [scan_append, ser_scan v (d + 1), serArrTail_scan tl (d + 1)]
          show d ≤ d + 1
          omega
        · obtain ⟨rfl, h3⟩ : ']' = c2 ∧ ([] : List Char) = e2 ++ q := by simpa using hB
          obtain rfl : e2 = [] := (List.append_eq_nil.mp h3.symm).1
          subst hp2
          rw [scan_append, scan_append, ser_scan v (d + 1), serArrTail_scan tl (d + 1),
              scan_cons, scan_close_bracket, scan_nil]
          show d ≤ d + 1 - 1
          omega
      · exact le_trans (Nat.le_succ d) (hinner p2 e hA)
  | Json.obj JsonObj.nil, d, p, q => by
    intro h; simp only [ser] at h
    rcases p with _ | ⟨c, p2⟩
    · simp [scan_nil]
    · obtain ⟨rfl, h2⟩ : '{' = c ∧ ['}'] = p2 ++ q := by simpa using h
      rcases p2 with _ | ⟨c2, p3⟩
      · rw [scan_cons, scan_open_brace, scan_nil]
        show d ≤ d + 1
        omega
      · obtain ⟨rfl, h3⟩ : '}' = c2 ∧ ([] : List Char) = p3 ++ q := by simpa using h2
        obtain rfl : p3 = [] := (List.append_eq_nil.mp h3.symm).1
        rw [scan_cons, scan_open_brace, scan_cons, scan_close_brace, scan_nil]
        show d ≤ d + 1 - 1
        omega
  | Json.obj (JsonObj.cons k v tl), d, p, q => by
    intro h; simp only [ser] at h
    rcases p with _ | ⟨c, p2⟩
    · simp [scan_nil]
    · obtain ⟨rfl, h2⟩ : '{' = c ∧ (serMember k v ++ serObjTail tl) ++ ['}'] = p2 ++ q := by
        simpa using h
      rw [scan_cons, scan_open_brace]
      have hinner : ∀ p3 q3, serMember k v ++ serObjTail tl = p3 ++ q3 →
          d + 1 ≤ (scan ⟨SMode.out, d + 1⟩ p3).depth :=
        pfxDepthAppend (serMember_scan k v (d + 1)) (serMember_pfxDepth k v (d + 1))
          (serObjTail_pfxDepth tl (d + 1))
      rcases List.append_eq_append_iff.mp h2 with ⟨e, hp2, hB⟩ | ⟨e, hA, hq⟩
      · rcases e with _ | ⟨c2, e2⟩
        · rw [List.append_nil] at hp2
          subst hp2
          rw [scan_append, serMember_scan k v (d + 1), serObjTail_scan tl (d + 1)]
          show d ≤ d + 1
          omega
        · obtain ⟨rfl, h3⟩ : '}' = c2 ∧ ([] : List Char) = e2 ++ q := by simpa using hB
          obtain rfl : e2 = [] := (List.append_eq_nil.mp h3.symm).1
          subst hp2
          rw [scan_append, scan_append, serMember_scan k v (d + 1),
              serObjTail_scan tl (d + 1), scan_cons, scan_close_brace, scan_nil]
          show d ≤ d + 1 - 1
          omega
      · exact le_trans (Nat.le_succ d) (hinner p2 e hA)

theorem serMember_pfxDepth : ∀ (k : List Char) (v : Json) (d : Nat) (p q : List Char),
    serMember k v = p ++ q → d ≤ (scan ⟨SMode.out, d⟩ p).depth
  | k, v, d, p, q => by
    intro h; simp only [serMember] at h
    have hinner : ∀ p2 q2, (':' :: ' ' :: ser v) = p2 ++ q2 →
        d ≤ (scan ⟨SMode.out, d⟩ p2).depth := by
      intro p2 q2 h2
      rcases p2 with _ | ⟨c, p3⟩
      · simp [scan_nil]
      · obtain ⟨rfl, h3⟩ : ':' = c ∧ ' ' :: ser v = p3 ++ q2 := by simpa using h2
        rw [scan_cons, scanChar_out_neutral (by decide) d]
        rcases p3 with _ | ⟨c2, p4⟩
        · simp [scan_nil]
        · obtain ⟨rfl, h4⟩ : ' ' = c2 ∧ ser v = p4 ++ q2 := by simpa using h3
          rw [scan_cons, scanChar_out_neutral (by decide) d]
          exact ser_pfxDepth v d p4 q2 h4
    exact pfxDepthAppend (serStr_scan k d) (pfxDepthStr k d) hinner p q h

theorem serArrTail_pfxDepth : ∀ (l : JsonArr) (d : Nat) (p q : List Char),
    serArrTail l = p ++ q → d ≤ (scan ⟨SMode.out, d⟩ p).depth
  | JsonArr.nil, d, p, q => by
    intro h; simp only [serArrTail] at h
    obtain rfl : p = [] := (List.append_eq_nil.mp h.symm).1
    simp [scan_nil]
  | JsonArr.cons v tl, d, p, q => by
    intro h; simp only [serArrTail] at h
    refine pfxDepthAppend ?_ ?_ (serArrTail_pfxDepth tl d) p q h
    · rw [scan_cons, scanChar_out_neutral (by decide) d, scan_cons,
          scanChar_out_neutral (by decide) d, ser_scan v d]
    · intro p2 q2 h2
      rcases p2 with _ | ⟨c, p3⟩
      · simp [scan_nil]
      · obtain ⟨rfl, h3⟩ : ',' = c ∧ ' ' :: ser v = p3 ++ q2 := by simpa using h2
        rw [scan_cons, scanChar_out_neutral (by decide) d]
        rcases p3 with _ | ⟨c2, p4⟩
        · simp [scan_nil]
        · obtain ⟨rfl, h4⟩ : ' ' = c2 ∧ ser v = p4 ++ q2 := by simpa using h3
          rw [scan_cons, scanChar_out_neutral (by decide) d]
          exact ser_pfxDepth v d p4 q2 h4

theorem serObjTail_pfxDepth : ∀ (l : JsonObj) (d : Nat) (p q : List Char),
    serObjTail l = p ++ q → d ≤ (scan ⟨SMode.out, d⟩ p).depth
  | JsonObj.nil, d, p, q => by
    intro h; simp only [serObjTail] at h
    obtain rfl : p = [] := (List.append_eq_nil.mp h.symm).1
    simp [scan_nil]
  | JsonObj.cons k v tl, d, p, q => by
    intro h; simp only [serObjTail] at h
    refine pfxDepthAppend ?_ ?_ (serObjTail_pfxDepth tl d) p q h
    · rw [scan_cons, scanChar_out_neutral (by decide) d, scan_cons,
          scanChar_out_neutral (by decide) d, serMember_scan k v d]
    · intro p2 q2 h2
      rcases p2 with _ | ⟨c, p3⟩
      · simp [scan_nil]
      · obtain ⟨rfl, h3⟩ : ',' = c ∧ ' ' :: serMember k v = p3 ++ q2 := by simpa using h2
        rw [scan_cons, scanChar_out_neutral (by decide) d]
        rcases p3 with _ | ⟨c2, p4⟩
        · simp [scan_nil]
        · obtain ⟨rfl, h4⟩ : ' ' = c2 ∧ serMember k v = p4 ++ q2 := by simpa using h3
          rw [scan_cons, scanChar_out_neutral (by decide) d]
          exact serMember_pfxDepth k v d p4 q2 h4

end

/-- Every nonempty strict prefix of a serialized top-level object leaves the
scanner at positive depth. -/
theorem serObj_strict_depth (fs : JsonObj) (p q : List Char)
    (h : ser (Json.obj fs) = p ++ q) (hq : q ≠ []) (hp : p ≠ []) :
    1 ≤ (scan ⟨SMode.out, 0⟩ p).depth := by
  rcases fs with _ | ⟨k, v, tl⟩
  · simp only [ser] at h
    rcases p with _ | ⟨c, p2⟩
    · exact absurd rfl hp
    · obtain ⟨rfl, h2⟩ : '{' = c ∧ ['}'] = p2 ++ q := by simpa using h
      rcases p2 with _ | ⟨c2, p3⟩
      · rw [scan_cons, scan_open_brace, scan_nil]
      · obtain ⟨rfl, h3⟩ : '}' = c2 ∧ ([] : List Char) = p3 ++ q := by simpa using h2
        obtain rfl : q = [] := (List.append_eq_nil.mp h3.symm).2
        exact absurd rfl hq
  · simp only [ser] at h
    rcases p with _ | ⟨c, p2⟩
    · exact absurd rfl hp
    · obtain ⟨rfl, h2⟩ : '{' = c ∧ (serMember k v ++ serObjTail tl) ++ ['}'] = p2 ++ q := by
        simpa using h
      rw [scan_cons, scan_open_brace]
      have hinner : ∀ p3 q3, serMember k v ++ serObjTail tl = p3 ++ q3 →
          1 ≤ (scan ⟨SMode.out, 1⟩ p3).depth :=
        pfxDepthAppend (serMember_scan k v 1) (serMember_pfxDepth k v 1)
          (serObjTail_pfxDepth tl 1)
      rcases List.append_eq_append_iff.mp h2 with ⟨e, hp2, hB⟩ | ⟨e, hA, hq2⟩
      · rcases e with _ | ⟨c2, e2⟩
        · rw [List.append_nil] at hp2
          subst hp2
          rw [scan_append, serMember_scan k v 1, serObjTail_scan tl 1]
        · obtain ⟨rfl, h3⟩ : '}' = c2 ∧ ([] : List Char) = e2 ++ q := by simpa using hB
          obtain rfl : q = [] := (List.append_eq_nil.mp h3.symm).2
          exact absurd rfl hq
      · exact hinner p2 e hA

/-- No strict prefix of a serialized JSON object is accepted as a complete
document. -/
theorem strictPfxIncomplete (fs : JsonObj) (p q : List Char)
    (h : ser (Json.obj fs) = p ++ q) (hq : q ≠ []) : jsonComplete p = false := by
  cases hjc : jsonComplete p
  · rfl
  · exfalso
    have hscan := jsonComplete_scan hjc
    rcases p with _ | ⟨c, p2⟩
    · exact absurd hjc (by rw [show jsonComplete [] = false from rfl]; simp)
    · have hd := serObj_strict_depth fs (c :: p2) q h hq (by simp)
      rw [hscan] at hd
      simp at hd

/-- The bridge returns only byte sequences accepted as complete JSON. -/
theorem receiveFullResponse_complete : ∀ (chunks : List (List Char)) (acc b : List Char),
    receiveFullResponse chunks acc = Except.ok b → jsonComplete b = true := by
  intro chunks
  induction chunks with
  | nil =>
    intro acc b h
    simp only [receiveFullResponse] at h
    split at h
    · simp at h
    · split at h
      · next hc => obtain rfl : acc = b := Except.ok.inj h; exact hc
      · simp at h
  | cons chunk rest ih =>
    intro acc b h
    simp only [receiveFullResponse] at h
    split at h
    · split at h
      · simp at h
      · split at h
        · next hc => obtain rfl : acc = b := Except.ok.inj h; exact hc
        · simp at h
    · split at h
      · next hc => obtain rfl : acc ++ chunk = b := Except.ok.inj h; exact hc
      · exact ih (acc ++ chunk) b h

theorem getD_set_self {α : Type} (l : List α) (n : Nat) (x d : α) (h : n < l.length) :
    (l.set n x).getD n d = x := by
  induction l generalizing n with
  | nil => simp at h
  | cons a t ih =>
    cases n with
    | zero => rfl
    | succ m =>
      have hm : m < t.length := by simp at h; omega
      show (a :: t.set m x).getD (m + 1) d = x
      rw [List.getD_cons_succ]
      exact ih m hm

/-! ## The claims -/

/-- Claim C1: for every incoming command whose type string is not one of the
dispatcher's enumerated command types, `_process_command` returns a response
with status error whose message names the unknown command, and leaves the
host state unchanged — in both Remote Scripts, for any handler behavior and
any main-thread delivery outcome. -/
theorem claim_C1_unknown_command (query task : CommandHandlers) (delivered : Bool)
    (ct : String) (params : JResult) (song : Song) :
    (ct ∉ boostQueryCommands → ct ∉ boostMutatingCommands →
      dispatch boostQueryCommands boostMutatingCommands query task delivered ct params song =
        (errorResponse ("Unknown command: " ++ ct), song)) ∧
    (ct ∉ mcpQueryCommands → ct ∉ mcpMutatingCommands →
      dispatch mcpQueryCommands mcpMutatingCommands query task delivered ct params song =
        (errorResponse ("Unknown command: " ++ ct), song)) := by
  constructor <;> intro h1 h2 <;> simp [dispatch, h1, h2]

theorem claim_C1_witness :
    dispatch boostQueryCommands boostMutatingCommands (fun _ _ s => (Except.ok [], s))
        (fun _ _ s => (Except.ok [], s)) true "bogus_command" [] {} =
      (errorResponse ("Unknown command: " ++ "bogus_command"), {}) ∧
    dispatch mcpQueryCommands mcpMutatingCommands (fun _ _ s => (Except.ok [], s))
        (fun _ _ s => (Except.ok [], s)) true "bogus_command" [] {} =
      (errorResponse ("Unknown command: " ++ "bogus_command"), {}) :=
  ⟨(claim_C1_unknown_command _ _ true "bogus_command" [] {}).1 (by decide) (by decide),
   (claim_C1_unknown_command _ _ true "bogus_command" [] {}).2 (by decide) (by decide)⟩

/-- Claim C3: a state-mutating command is awaited on the response queue with
a 10 second bound; when nothing is delivered in time the dispatcher answers
with status error and message "Timeout waiting for operation to complete"
(the host state of the modelled step unchanged), and when the main-thread
task's outcome is delivered it is wrapped into the response envelope. -/
theorem claim_C3_mainthread_delivery (queryCmds mutatingCmds : List String)
    (query task : CommandHandlers) (ct : String) (params : JResult) (song : Song)
    (hq : ct ∉ queryCmds) (hm : ct ∈ mutatingCmds) :
    mainThreadTimeoutSeconds = 10 ∧
    dispatch queryCmds mutatingCmds query task false ct params song =
      (errorResponse "Timeout waiting for operation to complete", song) ∧
    dispatch queryCmds mutatingCmds query task true ct params song =
      wrapOutcome (task ct params song) := by
  refine ⟨rfl, ?_, ?_⟩ <;> simp [dispatch, hq, hm]

theorem claim_C3_witness :
    mainThreadTimeoutSeconds = 10 ∧
    dispatch boostQueryCommands boostMutatingCommands (fun _ _ s => (Except.ok [], s))
        (fun _ _ s => (Except.ok [], s)) false "set_tempo" [] {} =
      (errorResponse "Timeout waiting for operation to complete", {}) ∧
    dispatch boostQueryCommands boostMutatingCommands (fun _ _ s => (Except.ok [], s))
        (fun _ _ s => (Except.ok [], s)) true "set_tempo" [] {} =
      wrapOutcome ((fun _ _ s => (Except.ok [], s) :
        CommandHandlers) "set_tempo" [] {}) :=
  claim_C3_mainthread_delivery boostQueryCommands boostMutatingCommands _ _
    "set_tempo" [] {} (by decide) (by decide)

/-- Claim C6: processing a `set_tempo` command with parameter `t` sets the
song tempo to `t` and returns a success response whose result `tempo` is
the tempo the song then holds, which is the tempo that was given. -/
theorem claim_C6_set_tempo_roundtrip (t : ℚ) (song : Song)
    (query other : CommandHandlers) :
    dispatch boostQueryCommands boostMutatingCommands query (mainThreadTask other) true
        "set_tempo" [("tempo", JVal.num t)] song =
      (successResponse [("tempo", JVal.num t)], { song with tempo := t }) ∧
    setTempo t song = (Except.ok [("tempo", JVal.num t)], { song with tempo := t }) := by
  constructor
  · have hq : "set_tempo" ∉ boostQueryCommands := by decide
    have hm : "set_tempo" ∈ boostMutatingCommands := by decide
    simp [dispatch, hq, hm, mainThreadTask, setTempo, getNumP, jlookup, wrapOutcome]
  · simp [setTempo]

theorem claim_C6_witness :
    dispatch boostQueryCommands boostMutatingCommands (fun _ _ s => (Except.ok [], s))
        (mainThreadTask (fun _ _ s => (Except.ok [], s))) true
        "set_tempo" [("tempo", JVal.num 140)] {} =
      (successResponse [("tempo", JVal.num 140)], { tempo := 140 }) ∧
    setTempo 140 {} = (Except.ok [("tempo", JVal.num 140)], { tempo := 140 }) :=
  claim_C6_set_tempo_roundtrip 140 {} _ _

/-- Claim C7: every response produced by the dispatcher is an object whose
status is exactly "success" or "error"; a success response carries a
`result` object and an error response carries a `message` string. -/
theorem claim_C7_response_envelope (queryCmds mutatingCmds : List String)
    (query task : CommandHandlers) (delivered : Bool) (ct : String)
    (params : JResult) (song : Song) (resp : JResult) (song2 : Song)
    (h : dispatch queryCmds mutatingCmds query task delivered ct params song = (resp, song2)) :
    (jlookup resp "status" = some (JVal.str "success") ∨
     jlookup resp "status" = some (JVal.str "error")) ∧
    (jlookup resp "status" = some (JVal.str "success") →
      ∃ res, jlookup resp "result" = some (JVal.obj res)) ∧
    (jlookup resp "status" = some (JVal.str "error") →
      ∃ m, jlookup resp "message" = some (JVal.str m)) := by
  by_cases h1 : ct ∈ queryCmds
  · rw [dispatch, if_pos h1] at h
    rcases hq : query ct params song with ⟨exc, s2⟩
    rw [hq] at h
    rcases exc with m | res
    · simp only [wrapOutcome] at h
      obtain ⟨rfl, rfl⟩ := Prod.mk.inj h
      simp [errorResponse, jlookup]
    · simp only [wrapOutcome] at h
      obtain ⟨rfl, rfl⟩ := Prod.mk.inj h
      simp [successResponse, jlookup]
  · by_cases h2 : ct ∈ mutatingCmds
    · rw [dispatch, if_neg h1, if_pos h2] at h
      cases delivered with
      | false =>
        rw [if_neg (by simp)] at h
        obtain ⟨rfl, rfl⟩ := Prod.mk.inj h
        simp [errorResponse, jlookup]
      | true =>
        rw [if_pos rfl] at h
        rcases ht : task ct params song with ⟨exc, s2⟩
        rw [ht] at h
        rcases exc with m | res
        · simp only [wrapOutcome] at h
          obtain ⟨rfl, rfl⟩ := Prod.mk.inj h
          simp [errorResponse, jlookup]
        · simp only [wrapOutcome] at h
          obtain ⟨rfl, rfl⟩ := Prod.mk.inj h
          simp [successResponse, jlookup]
    · rw [dispatch, if_neg h1, if_neg h2] at h
      obtain ⟨rfl, rfl⟩ := Prod.mk.inj h
      simp [errorResponse, jlookup]

theorem claim_C7_witness :
    (jlookup (errorResponse ("Unknown command: " ++ "zzz")) "status" =
        some (JVal.str "success") ∨
     jlookup (errorResponse ("Unknown command: " ++ "zzz")) "status" =
        some (JVal.str "error")) ∧
    (jlookup (errorResponse ("Unknown command: " ++ "zzz")) "status" =
        some (JVal.str "success") →
      ∃ res, jlookup (errorResponse ("Unknown command: " ++ "zzz")) "result" =
        some (JVal.obj res)) ∧
    (jlookup (errorResponse ("Unknown command: " ++ "zzz")) "status" =
        some (JVal.str "error") →
      ∃ m, jlookup (errorResponse ("Unknown command: " ++ "zzz")) "message" =
        some (JVal.str m)) :=
  claim_C7_response_envelope boostQueryCommands boostMutatingCommands
    (fun _ _ s => (Except.ok [], s)) (fun _ _ s => (Except.ok [], s)) true "zzz" [] {}
    (errorResponse ("Unknown command: " ++ "zzz")) {} (by rfl)

/-- Claim C8: `create_clip` rejects an occupied slot with the exception
message "Clip slot already has a clip", and every `create_clip` failure
happens before any mutation, so the song is unchanged on every error. -/
theorem claim_C8_create_clip_validation :
    (∀ (ti ci : Int) (len : ℚ) (song : Song) (c : Clip),
      0 ≤ ti → ti < (song.tracks.length : Int) →
      0 ≤ ci → ci < ((song.tracks.getD ti.toNat {}).clipSlots.length : Int) →
      ((song.tracks.getD ti.toNat {}).clipSlots.getD ci.toNat {}).clip = some c →
      createClip ti ci len song = (Except.error "Clip slot already has a clip", song)) ∧
    (∀ (ti ci : Int) (len : ℚ) (song s2 : Song) (e : String),
      createClip ti ci len song = (Except.error e, s2) → s2 = song) := by
  constructor
  · intro ti ci len song c h1 h2 h3 h4 h5
    simp only [createClip]
    rw [if_neg (by omega), if_neg (by omega), if_pos (by rw [h5]; rfl)]
  · intro ti ci len song s2 e h
    simp only [createClip] at h
    split at h
    · exact (Prod.mk.inj h).2.symm
    · split at h
      · exact (Prod.mk.inj h).2.symm
      · split at h
        · exact (Prod.mk.inj h).2.symm
        · exfalso
          have := (Prod.mk.inj h).1
          simp at this

theorem claim_C8_witness :
    createClip 0 0 4 { tracks := [{ clipSlots := [{ clip := some {} }] }] } =
      (Except.error "Clip slot already has a clip",
       { tracks := [{ clipSlots := [{ clip := some {} }] }] }) :=
  claim_C8_create_clip_validation.1 0 0 4
    { tracks := [{ clipSlots := [{ clip := some {} }] }] } {}
    (by decide) (by decide) (by decide) (by decide) rfl

/-- Claim C9: with both indices in range and the addressed slot empty,
`stop_clip` succeeds and returns `{"stopped": true}` while `fire_clip` on
the same slot raises "No clip in slot": the two preconditions are
asymmetric. -/
theorem claim_C9_stop_fire_asymmetry (ti ci : Int) (song : Song)
    (h1 : 0 ≤ ti) (h2 : ti < (song.tracks.length : Int))
    (h3 : 0 ≤ ci) (h4 : ci < ((song.tracks.getD ti.toNat {}).clipSlots.length : Int))
    (h5 : ((song.tracks.getD ti.toNat {}).clipSlots.getD ci.toNat {}).clip = none) :
    (stopClip ti ci song).1 = Except.ok [("stopped", JVal.bool true)] ∧
    fireClip ti ci song = (Except.error "No clip in slot", song) := by
  constructor
  · simp only [stopClip]
    rw [if_neg (by omega), if_neg (by omega)]
  · simp only [fireClip]
    rw [if_neg (by omega), if_neg (by omega), if_neg (by rw [h5]; simp)]

theorem claim_C9_witness :
    (stopClip 0 0 { tracks := [{ clipSlots := [{}] }] }).1 =
      Except.ok [("stopped", JVal.bool true)] ∧
    fireClip 0 0 { tracks := [{ clipSlots := [{}] }] } =
      (Except.error "No clip in slot", { tracks := [{ clipSlots := [{}] }] }) :=
  claim_C9_stop_fire_asymmetry 0 0 { tracks := [{ clipSlots := [{}] }] }
    (by decide) (by decide) (by decide) (by decide) rfl

/-- Claim C10: `set_clip_follow_action` writes the probability clamped to
[0, 1] to follow action A, gives follow action B exactly the complement
(the two probabilities sum to 1), and silently maps an unrecognized action
string to the "none" action value 0. -/
theorem claim_C10_follow_action (ti ci : Int) (a : String) (p : ℚ) (song : Song) (c : Clip)
    (h1 : 0 ≤ ti) (h2 : ti < (song.tracks.length : Int))
    (h3 : 0 ≤ ci) (h4 : ci < ((song.tracks.getD ti.toNat {}).clipSlots.length : Int))
    (h5 : ((song.tracks.getD ti.toNat {}).clipSlots.getD ci.toNat {}).clip = some c) :
    ∃ s2, setClipFollowAction ti ci a p song =
        (Except.ok [("track_index", JVal.num (ti : ℚ)), ("clip_index", JVal.num (ci : ℚ)),
                    ("action_type", JVal.str a),
                    ("probability", JVal.num (max 0 (min 1 p))),
                    ("follow_action_enabled", JVal.bool true)], s2) ∧
      clipAt s2 ti.toNat ci.toNat = some { c with
        followActionA := followActionMap a.toLower,
        followActionAProb := max 0 (min 1 p),
        followActionB := 0,
        followActionBProb := 1 - max 0 (min 1 p),
        followActionEnabled := true } ∧
      0 ≤ max 0 (min 1 p) ∧ max 0 (min 1 p) ≤ 1 ∧
      max 0 (min 1 p) + (1 - max 0 (min 1 p)) = 1 ∧
      (a.toLower ∉ ["none", "next", "prev", "first", "last", "any", "other"] →
        followActionMap a.toLower = 0) := by
  have hti : ti.toNat < song.tracks.length := by omega
  have htc : ci.toNat < (song.tracks.getD ti.toNat {}).clipSlots.length := by omega
  refine ⟨{ song with
      tracks := song.tracks.set ti.toNat
        ({ (song.tracks.getD ti.toNat {}) with
           clipSlots := (song.tracks.getD ti.toNat {}).clipSlots.set ci.toNat
             ({ clip := some ({ c with
                  followActionA := followActionMap a.toLower,
                  followActionAProb := max 0 (min 1 p),
                  followActionB := 0,
                  followActionBProb := 1 - max 0 (min 1 p),
                  followActionEnabled := true }) }) }) }, ?_, ?_, ?_, ?_, ?_, ?_⟩
  · simp only [setClipFollowAction]
    rw [if_neg (by omega), if_neg (by omega), h5]
  · simp only [clipAt]
    rw [getD_set_self _ _ _ _ hti]
    simp only []
    rw [getD_set_self _ _ _ _ htc]
  · exact le_max_left 0 (min 1 p)
  · exact max_le (by norm_num) (min_le_left 1 p)
  · ring
  · intro hn
    simp only [List.mem_cons, List.not_mem_nil, or_false, not_or] at hn
    obtain ⟨n1, n2, n3, n4, n5, n6, n7⟩ := hn
    simp [followActionMap, n1, n2, n3, n4, n5, n6, n7]

theorem claim_C10_witness :
    ∃ s2, setClipFollowAction 0 0 "wrongaction" 2
        { tracks := [{ clipSlots := [{ clip := some {} }] }] } =
        (Except.ok [("track_index", JVal.num ((0 : Int) : ℚ)),
                    ("clip_index", JVal.num ((0 : Int) : ℚ)),
                    ("action_type", JVal.str "wrongaction"),
                    ("probability", JVal.num (max 0 (min 1 2))),
                    ("follow_action_enabled", JVal.bool true)], s2) ∧
      clipAt s2 (0 : Int).toNat (0 : Int).toNat = some
        { name := "", length := 4, isPlaying := false,
          followActionA := followActionMap "wrongaction".toLower,
          followActionAProb := max 0 (min 1 2),
          followActionB := 0,
          followActionBProb := 1 - max 0 (min 1 2),
          followActionEnabled := true,
          followActionTime := 0, followActionLinked := false } ∧
      0 ≤ max 0 (min 1 (2 : ℚ)) ∧ max 0 (min 1 (2 : ℚ)) ≤ 1 ∧
      max 0 (min 1 (2 : ℚ)) + (1 - max 0 (min 1 (2 : ℚ))) = 1 ∧
      ("wrongaction".toLower ∉ ["none", "next", "prev", "first", "last", "any", "other"] →
        followActionMap "wrongaction".toLower = 0) :=
  claim_C10_follow_action 0 0 "wrongaction" 2
    { tracks := [{ clipSlots := [{ clip := some {} }] }] } {}
    (by decide) (by decide) (by decide) (by decide) rfl

/-- Claim C4: whenever `send_command` fails after the command was sent over
an existing socket — timeout, connection error, malformed JSON,
Ableton-reported error status, or any other failure — it clears the cached
socket handle before raising, so the next call re-establishes the
connection. -/
theorem claim_C4_socket_reset (connectOk : Bool) (t : Transport) (c : Conn)
    (e : String) (c2 : Conn) (hc : c.connected = true)
    (h : sendCommand connectOk t c = (Except.error e, c2)) :
    c2.connected = false := by
  cases t with
  | ok resp =>
    simp only [sendCommand.eq_def] at h
    rw [if_neg (by simp [hc])] at h
    split at h
    · obtain rfl := (Prod.mk.inj h).2
      rfl
    · exfalso
      have := (Prod.mk.inj h).1
      simp at this
  | timeout =>
    simp only [sendCommand.eq_def] at h
    rw [if_neg (by simp [hc])] at h
    obtain rfl := (Prod.mk.inj h).2
    rfl
  | connError m =>
    simp only [sendCommand.eq_def] at h
    rw [if_neg (by simp [hc])] at h
    obtain rfl := (Prod.mk.inj h).2
    rfl
  | badJson m =>
    simp only [sendCommand.eq_def] at h
    rw [if_neg (by simp [hc])] at h
    obtain rfl := (Prod.mk.inj h).2
    rfl
  | otherFail m =>
    simp only [sendCommand.eq_def] at h
    rw [if_neg (by simp [hc])] at h
    obtain rfl := (Prod.mk.inj h).2
    rfl

theorem claim_C4_witness :
    ((Conn.mk false) : Conn).connected = false :=
  claim_C4_socket_reset true Transport.timeout (Conn.mk true)
    "Timeout waiting for Ableton response" (Conn.mk false) rfl rfl

theorem cAF_attempts_le (outcome : Nat → AttemptOutcome) :
    ∀ (fuel attempt : Nat), (connectAttemptsFrom outcome attempt fuel).attemptsMade ≤ fuel := by
  intro fuel
  induction fuel with
  | zero => intro attempt; simp [connectAttemptsFrom]
  | succ fuel ih =>
    intro attempt
    simp only [connectAttemptsFrom]
    split
    · simp
    · split
      · have := ih (attempt + 1)
        simp only []
        omega
      · simp

theorem cAF_sleeps (outcome : Nat → AttemptOutcome) :
    ∀ (fuel attempt : Nat), 1 ≤ fuel → maxConnectAttempts < attempt + fuel →
      (connectAttemptsFrom outcome attempt fuel).sleeps + 1 =
        (connectAttemptsFrom outcome attempt fuel).attemptsMade := by
  intro fuel
  induction fuel with
  | zero => intro attempt h0; omega
  | succ fuel ih =>
    intro attempt _ hsum
    simp only [connectAttemptsFrom]
    split
    · rfl
    · split
      · next hlt =>
        have hf : 1 ≤ fuel := by
          simp only [maxConnectAttempts] at hsum hlt
          omega
        have := ih (attempt + 1) hf (by simp only [maxConnectAttempts] at hsum ⊢; omega)
        simp only []
        omega
      · rfl

theorem cAF_result_ok (outcome : Nat → AttemptOutcome) :
    ∀ (fuel attempt i : Nat),
      (connectAttemptsFrom outcome attempt fuel).result = Except.ok i →
      outcome i = AttemptOutcome.success ∧ attempt ≤ i ∧
        (i ≤ maxConnectAttempts ∨ i = attempt) ∧
        ∀ j, attempt ≤ j → j < i → outcome j ≠ AttemptOutcome.success := by
  intro fuel
  induction fuel with
  | zero => intro attempt i h; simp [connectAttemptsFrom] at h
  | succ fuel ih =>
    intro attempt i h
    simp only [connectAttemptsFrom] at h
    split at h
    · next hs =>
      obtain rfl : attempt = i := Except.ok.inj h
      refine ⟨hs, le_refl _, Or.inr rfl, ?_⟩
      intro j hj1 hj2
      exfalso
      omega
    · next hs =>
      split at h
      · next hlt =>
        simp only [] at h
        obtain ⟨hsi, hle, hdisj, hall⟩ := ih (attempt + 1) i h
        refine ⟨hsi, by omega, ?_, ?_⟩
        · simp only [maxConnectAttempts] at hlt hdisj ⊢
          omega
        · intro j hj1 hj2
          rcases Nat.eq_or_lt_of_le hj1 with rfl | hj3
          · exact hs
          · exact hall j (by omega) hj2
      · simp at h

theorem cAF_all_fail (outcome : Nat → AttemptOutcome) :
    ∀ (fuel attempt : Nat), attempt ≤ maxConnectAttempts →
      (∀ j, attempt ≤ j → j ≤ maxConnectAttempts →
        outcome j ≠ AttemptOutcome.success) →
      (connectAttemptsFrom outcome attempt fuel).result =
        Except.error connectFailureMessage := by
  intro fuel
  induction fuel with
  | zero => intro attempt _ _; rfl
  | succ fuel ih =>
    intro attempt hle hall
    simp only [connectAttemptsFrom]
    split
    · next hs => exact absurd hs (hall attempt (le_refl _) hle)
    · split
      · next hlt =>
        exact ih (attempt + 1) hlt (fun j h1 h2 => hall j (by omega) h2)
      · rfl

/-- Claim C5: with no valid cached connection, `get_ableton_connection`
makes at most 3 attempts, sleeps the fixed delay exactly between
consecutive attempts (not after the last), returns on the first attempt
that connects and validates, and raises after 3 failures. -/
theorem claim_C5_bounded_retry (outcome : Nat → AttemptOutcome) :
    (getAbletonConnectionRetry outcome).attemptsMade ≤ 3 ∧
    (getAbletonConnectionRetry outcome).sleeps + 1 =
      (getAbletonConnectionRetry outcome).attemptsMade ∧
    (∀ i, (getAbletonConnectionRetry outcome).result = Except.ok i →
      outcome i = AttemptOutcome.success ∧ 1 ≤ i ∧ i ≤ 3 ∧
      ∀ j, 1 ≤ j → j < i → outcome j ≠ AttemptOutcome.success) ∧
    ((∀ j, 1 ≤ j → j ≤ 3 → outcome j ≠ AttemptOutcome.success) →
      (getAbletonConnectionRetry outcome).result = Except.error connectFailureMessage) := by
  refine ⟨cAF_attempts_le outcome 3 1, ?_, ?_, ?_⟩
  · exact cAF_sleeps outcome 3 1 (by norm_num) (by simp [maxConnectAttempts])
  · intro i hi
    obtain ⟨hsi, hle, hdisj, hall⟩ := cAF_result_ok outcome 3 1 i hi
    refine ⟨hsi, hle, ?_, hall⟩
    simp only [maxConnectAttempts] at hdisj
    omega
  · intro hall
    exact cAF_all_fail outcome 3 1 (by simp [maxConnectAttempts]) (fun j h1 h2 =>
      hall j h1 (by simpa [maxConnectAttempts] using h2))

theorem claim_C5_witness :
    (fun n => if n = 2 then AttemptOutcome.success else AttemptOutcome.connectFail) 2 =
      AttemptOutcome.success ∧ 1 ≤ 2 ∧ 2 ≤ 3 ∧
    ∀ j, 1 ≤ j → j < 2 →
      (fun n => if n = 2 then AttemptOutcome.success else AttemptOutcome.connectFail) j ≠
        AttemptOutcome.success :=
  (claim_C5_bounded_retry
    (fun n => if n = 2 then AttemptOutcome.success else AttemptOutcome.connectFail)).2.2.1
    2 (by rfl)

/-- Claim C2: no strict prefix of the byte encoding of a JSON command
object parses as a complete document, so the host-side client handler keeps
accumulating on a partial frame and never invokes `_process_command` on
partial data; symmetrically the bridge's `receive_full_response` returns
only byte sequences that decode as a complete JSON document. -/
theorem claim_C2_partial_frames :
    (∀ (fs : JsonObj) (p q buffer data : List Char),
      ser (Json.obj fs) = p ++ q → q ≠ [] → buffer ++ data = p →
      handleClientStep buffer data = HandleResult.accumulate p) ∧
    (∀ (chunks : List (List Char)) (acc b : List Char),
      receiveFullResponse chunks acc = Except.ok b → jsonComplete b = true) := by
  constructor
  · intro fs p q buffer data h hq hbd
    simp only [handleClientStep]
    rw [hbd, strictPfxIncomplete fs p q h hq]
    simp
  · exact receiveFullResponse_complete

theorem claim_C2_witness :
    handleClientStep [] ['{', '"', 't', 'e', 'm', 'p', 'o', '"', ':', ' ', '1', '2', '0', '.'] =
      HandleResult.accumulate
        ['{', '"', 't', 'e', 'm', 'p', 'o', '"', ':', ' ', '1', '2', '0', '.'] ∧
    jsonComplete ['{', '}'] = true :=
  ⟨claim_C2_partial_frames.1
      (JsonObj.cons ['t', 'e', 'm', 'p', 'o'] (Json.fnum false [1, 2, 0] [0] none) JsonObj.nil)
      ['{', '"', 't', 'e', 'm', 'p', 'o', '"', ':', ' ', '1', '2', '0', '.'] ['0', '}'] []
      ['{', '"', 't', 'e', 'm', 'p', 'o', '"', ':', ' ', '1', '2', '0', '.']
      (by simp [ser, serMember, serStr, serObjTail, escBody, escChar, serFnum,
        serFracPart, serExpPart, digitChar]) (by simp) (by rfl),
   claim_C2_partial_frames.2 [['{', '}']] [] ['{', '}'] (by rfl)⟩

end Ableton
